import Mathlib

/-!
A shallow embedding of the comparison engine of s3-tree-compare.

Go strings are modelled by Lean `String` (sequences of code points; for valid UTF-8 the
byte-wise order of Go coincides with the code-point lexicographic order used here).
Go maps are modelled by association lists without duplicate keys (`AList`); the order of the
entries stands for one possible iteration order of the Go map.
Go runtime panics and the exhaustion of the loop fuel of the model are explicit faults.
-/

namespace S3Compare

deriving instance DecidableEq for Except

/-! ## Strings -/

/-- Go's `a < b` on strings, decided on the character lists so that it evaluates. -/
instance strDecLt (a b : String) : Decidable (a < b) :=
  decidable_of_iff (a.toList < b.toList) String.lt_iff_toList_lt.symm

/-- Go's `a <= b` on strings, decided on the character lists so that it evaluates. -/
instance strDecLe (a b : String) : Decidable (a ≤ b) :=
  decidable_of_iff (a.toList ≤ b.toList) String.le_iff_toList_le.symm

/-- Go's `len(s)`: the number of bytes of the UTF-8 encoding. -/
def len (s : String) : Nat := s.utf8ByteSize

/-- Go's `strings.HasPrefix(s, p)`. -/
def HasPrefix (s p : String) : Bool := p.toList.isPrefixOf s.toList

/-- Go's `s[len(p):]` for a string `s` that begins with `p`: the text after the prefix. -/
def sliceFrom (s p : String) : String := String.mk (s.toList.drop p.toList.length)

/-- Go's `sort.Strings`: the ascending sorted permutation of its argument. -/
def sortStrings (l : List String) : List String := l.insertionSort (fun a b => a ≤ b)

/-! ## diff.go -/

abbrev OutputFormat := Int

def OutputFormatText : OutputFormat := 0

def OutputFormatJSON : OutputFormat := 1

structure DiffObject where
  URL : String
  LastModified : String
  deriving DecidableEq, Repr

abbrev DiffType := String

def DiffTypeMissing : DiffType := "Missing"

def DiffTypeMismatch : DiffType := "Mismatch"

/-- The Go struct `DiffReport`; the field `Type` is called `Typ` here. A `nil` Go map is the
empty association list. -/
structure DiffReport where
  Typ : DiffType
  Objects : List DiffObject
  CommonHeaders : AList (fun _ : String => String)
  DiffHeaders : AList (fun _ : String => List String)

abbrev DiffObjectPosition := Int

def FirstObject : DiffObjectPosition := 0

def SecondObject : DiffObjectPosition := 1

/-- Faults of a run of the model: a Go runtime panic, or the fuel of a loop ran out. -/
inductive Fault where
  | indexOutOfRange
  | invalidPosition
  | invariantViolation
  | outOfFuel
  deriving DecidableEq, Repr

/-- The function `MissingDiffReport` of diff.go; the `default` branch panics. -/
def MissingDiffReport (url : String) (position : DiffObjectPosition) : Except Fault DiffReport :=
  let empty : DiffObject := { URL := "", LastModified := "" }
  let obj : DiffObject := { URL := url, LastModified := "" }
  if position = FirstObject then
    .ok { Typ := DiffTypeMissing, Objects := [obj, empty], CommonHeaders := ∅, DiffHeaders := ∅ }
  else if position = SecondObject then
    .ok { Typ := DiffTypeMissing, Objects := [empty, obj], CommonHeaders := ∅, DiffHeaders := ∅ }
  else
    .error .invalidPosition

/-! ## s3_comparer.go: the two merges of `asyncComparePrefixes` -/

/-- The arguments of one call `s3c.printMissing(bucket, prefix, key, position)`. -/
structure MissingCall where
  bucket : String
  pfx : String
  key : String
  position : DiffObjectPosition
  deriving DecidableEq, Repr

/-- The loop variables of a merge loop: the cursors `i`, `j`, the slice of pairs recorded for
comparison, and the `printMissing` calls made so far, in order. -/
structure MergeState where
  i : Nat
  j : Nat
  toCompare : List (List String)
  missing : List MissingCall
  deriving DecidableEq, Repr

/-- Lines 177-196: the loop over the sub-prefix lists, as written in the source: the first
case compares `subprefixes1[i]` with `subprefixes1[j]` and the default case reports
`subprefixes2[i]`. An index outside its slice is the Go runtime panic. -/
def subprefixLoop (bucket1 bucket2 prefix1 prefix2 : String)
    (subprefixes1 subprefixes2 : List String) : Nat → MergeState → Except Fault MergeState
  | fuel, st =>
    if st.i < subprefixes1.length ∧ st.j < subprefixes2.length then
      match fuel with
      | 0 => .error .outOfFuel
      | fuel + 1 =>
        match subprefixes1[st.i]?, subprefixes1[st.j]?, subprefixes2[st.j]? with
        | some s1i, some s1j, some s2j =>
          if s1i = s1j then
            subprefixLoop bucket1 bucket2 prefix1 prefix2 subprefixes1 subprefixes2 fuel
              { st with
                toCompare := st.toCompare ++ [[prefix1 ++ s1i, prefix2 ++ s2j]]
                i := st.i + 1
                j := st.j + 1 }
          else if s1i < s2j then
            subprefixLoop bucket1 bucket2 prefix1 prefix2 subprefixes1 subprefixes2 fuel
              { st with
                missing := st.missing ++ [⟨bucket1, prefix1, s1i, FirstObject⟩]
                i := st.i + 1 }
          else
            match subprefixes2[st.i]? with
            | some s2i =>
              subprefixLoop bucket1 bucket2 prefix1 prefix2 subprefixes1 subprefixes2 fuel
                { st with
                  missing := st.missing ++ [⟨bucket2, prefix2, s2i, SecondObject⟩]
                  j := st.j + 1 }
            | none => .error .indexOutOfRange
        | _, _, _ => .error .indexOutOfRange
    else
      .ok st

/-- Lines 215-236: the loop over the key lists. -/
def keyLoop (bucket1 bucket2 prefix1 prefix2 : String)
    (keys1 keys2 : List String) : Nat → MergeState → Except Fault MergeState
  | fuel, st =>
    if st.i < keys1.length ∧ st.j < keys2.length then
      match fuel with
      | 0 => .error .outOfFuel
      | fuel + 1 =>
        match keys1[st.i]?, keys2[st.j]? with
        | some k1, some k2 =>
          if k1 = k2 then
            keyLoop bucket1 bucket2 prefix1 prefix2 keys1 keys2 fuel
              { st with
                toCompare := st.toCompare ++ [[prefix1 ++ k1, prefix2 ++ k2]]
                i := st.i + 1
                j := st.j + 1 }
          else if k1 < k2 then
            keyLoop bucket1 bucket2 prefix1 prefix2 keys1 keys2 fuel
              { st with
                missing := st.missing ++ [⟨bucket1, prefix1, k1, FirstObject⟩]
                i := st.i + 1 }
          else
            keyLoop bucket1 bucket2 prefix1 prefix2 keys1 keys2 fuel
              { st with
                missing := st.missing ++ [⟨bucket2, prefix2, k2, SecondObject⟩]
                j := st.j + 1 }
        | _, _ => .error .indexOutOfRange
    else
      .ok st

/-- The two loops that follow a merge loop (lines 201-208 and 241-248): every remaining
entry of list 1, then every remaining entry of list 2, is reported missing. -/
def drainLoops (bucket1 bucket2 prefix1 prefix2 : String) (l1 l2 : List String)
    (st : MergeState) : MergeState :=
  let m1 := (l1.drop st.i).map (fun s => (⟨bucket1, prefix1, s, FirstObject⟩ : MissingCall))
  let m2 := (l2.drop st.j).map (fun s => (⟨bucket2, prefix2, s, SecondObject⟩ : MissingCall))
  { st with
    i := max st.i l1.length
    j := max st.j l2.length
    missing := st.missing ++ m1 ++ m2 }

/-- What one merge of `asyncComparePrefixes` leaves behind: the pairs to compare and the
`printMissing` calls, in the order in which they were made. -/
structure MergeResult where
  toCompare : List (List String)
  missing : List MissingCall
  deriving DecidableEq, Repr

/-- Lines 172-208: the sub-prefix merge, with `i := 0`, `j := 0` and an empty slice. Each
iteration advances a cursor, so `len1 + len2` iterations are enough fuel. -/
def mergeSubprefixes (bucket1 bucket2 prefix1 prefix2 : String)
    (subprefixes1 subprefixes2 : List String) : Except Fault MergeResult :=
  match subprefixLoop bucket1 bucket2 prefix1 prefix2 subprefixes1 subprefixes2
      (subprefixes1.length + subprefixes2.length) ⟨0, 0, [], []⟩ with
  | .ok st =>
    let st1 := drainLoops bucket1 bucket2 prefix1 prefix2 subprefixes1 subprefixes2 st
    .ok ⟨st1.toCompare, st1.missing⟩
  | .error e => .error e

/-- Lines 210-248: the key merge. -/
def mergeKeys (bucket1 bucket2 prefix1 prefix2 : String)
    (keys1 keys2 : List String) : Except Fault MergeResult :=
  match keyLoop bucket1 bucket2 prefix1 prefix2 keys1 keys2
      (keys1.length + keys2.length) ⟨0, 0, [], []⟩ with
  | .ok st =>
    let st1 := drainLoops bucket1 bucket2 prefix1 prefix2 keys1 keys2 st
    .ok ⟨st1.toCompare, st1.missing⟩
  | .error e => .error e

/-! ## utils.go and the header comparison of `asyncCompareKeys` -/

/-- A Go `map[string]string`. -/
abbrev Headers := AList (fun _ : String => String)

/-- The fields of the SDK's `s3.HeadObjectOutput` that the program reads, together with the
two further fields that the usage text of main.go names (`Expires`,
`WebsiteRedirectLocation`). A `nil` string pointer is `none`; `LastModified` holds the text
that `LastModified.Format(time.RFC3339Nano)` yields. -/
structure HeadObjectOutput where
  ContentLength : Int
  CacheControl : Option String
  ContentDisposition : Option String
  ContentEncoding : Option String
  ContentLanguage : Option String
  ContentType : Option String
  ETag : Option String
  Expires : Option String
  WebsiteRedirectLocation : Option String
  LastModified : String
  Metadata : Headers

/-- The SDK's `aws.ToString`: the empty string for a `nil` pointer. -/
def awsToString (p : Option String) : String := p.getD ""

/-- One optional header of `headObjectOutputToHeaders`: set only when the text is not empty. -/
def setIfNonEmpty (headers : Headers) (name : String) (p : Option String) : Headers :=
  if awsToString p ≠ "" then headers.insert name (awsToString p) else headers

/-- The function `headObjectOutputToHeaders` of utils.go. `toLower` stands for Go's `strings.ToLower`. -/
def headObjectOutputToHeaders (toLower : String → String) (hoo : HeadObjectOutput) : Headers :=
  let headers : Headers := ∅
  let headers := headers.insert "content-length" (toString hoo.ContentLength)
  let headers := setIfNonEmpty headers "cache-control" hoo.CacheControl
  let headers := setIfNonEmpty headers "content-disposition" hoo.ContentDisposition
  let headers := setIfNonEmpty headers "content-encoding" hoo.ContentEncoding
  let headers := setIfNonEmpty headers "content-language" hoo.ContentLanguage
  let headers := setIfNonEmpty headers "content-type" hoo.ContentType
  let headers := setIfNonEmpty headers "etag" hoo.ETag
  hoo.Metadata.entries.foldl
    (fun h e => h.insert (toLower ("x-amz-meta-" ++ e.1)) e.2) headers

/-- The function `maxint` of utils.go. -/
def maxint (a b : Int) : Int := if a < b then b else a

/-- The state of an `S3Comparer` that the model follows: the ignore set, the bytes written to
the output sink so far, the output format, the flag `firstJSONWritten` and the two buckets. -/
structure S3Comparer where
  ignoredHeaders : AList (fun _ : String => Bool)
  output : String
  outputFormat : OutputFormat
  firstJSONWritten : Nat
  bucket1 : String
  bucket2 : String

/-- The function `S3Comparer.IgnoreHeader`. -/
def S3Comparer.IgnoreHeader (toLower : String → String) (s3c : S3Comparer) (header : String) :
    S3Comparer :=
  { s3c with ignoredHeaders := s3c.ignoredHeaders.insert (toLower header) true }

/-- The Go expression `s3c.ignoredHeaders[key]`: `false` for a key that is not in the map. -/
def S3Comparer.isIgnored (s3c : S3Comparer) (key : String) : Bool :=
  (s3c.ignoredHeaders.lookup key).getD false

/-- The variables of the two header loops of `asyncCompareKeys`. -/
structure DiffState where
  CommonHeaders : AList (fun _ : String => String)
  DiffHeaders : AList (fun _ : String => List String)
  diffsFound : Bool
  headers2 : Headers

/-- The body of the loop of lines 326-343, for the entry `key, value1` of `headers1`. -/
def firstLoopBody (s3c : S3Comparer) (st : DiffState) (e : Sigma (fun _ : String => String)) :
    DiffState :=
  let key := e.1
  let value1 := e.2
  let found := (st.headers2.lookup key).isSome
  let value2 := (st.headers2.lookup key).getD ""
  let st1 : DiffState :=
    if found && decide (value1 = value2) then
      { st with CommonHeaders := st.CommonHeaders.insert key value1 }
    else
      { st with
        DiffHeaders := st.DiffHeaders.insert key [value1, value2]
        diffsFound := if !s3c.isIgnored key then true else st.diffsFound }
  if found then { st1 with headers2 := st1.headers2.erase key } else st1

/-- The body of the loop of lines 345-352, for the entry `key, value2` left in `headers2`. -/
def secondLoopBody (s3c : S3Comparer) (st : DiffState) (e : Sigma (fun _ : String => String)) :
    DiffState :=
  { st with
    DiffHeaders := st.DiffHeaders.insert e.1 ["", e.2]
    diffsFound := if !s3c.isIgnored e.1 then true else st.diffsFound }

/-- Lines 307-352 of `asyncCompareKeys`: both header loops, from empty maps and
`diffsFound := false`. The second loop ranges over what the first left in `headers2`. -/
def compareHeaders (s3c : S3Comparer) (headers1 headers2 : Headers) : DiffState :=
  let st0 : DiffState := ⟨∅, ∅, false, headers2⟩
  let st1 := headers1.entries.foldl (firstLoopBody s3c) st0
  st1.headers2.entries.foldl (secondLoopBody s3c) st1

/-- The result of `asyncHeadObject`: an error text, or the metadata. -/
abbrev asyncHeadObjectResult := Except String HeadObjectOutput

/-- The function `asyncCompareKeys` from the point where both results have arrived (line 293): the report
handed to `printDiff`, or `none` when the function returns without reporting. -/
def asyncCompareKeys (toLower : String → String) (s3c : S3Comparer) (key1 key2 : String)
    (result1 result2 : asyncHeadObjectResult) : Option DiffReport :=
  match result1, result2 with
  | .ok hoo1, .ok hoo2 =>
    let headers1 := headObjectOutputToHeaders toLower hoo1
    let headers2 := headObjectOutputToHeaders toLower hoo2
    let st := compareHeaders s3c headers1 headers2
    if !st.diffsFound then none
    else some
      { Typ := "Mismatch"
        Objects :=
          [ { URL := "s3://" ++ s3c.bucket1 ++ "/" ++ key1, LastModified := hoo1.LastModified },
            { URL := "s3://" ++ s3c.bucket2 ++ "/" ++ key2, LastModified := hoo2.LastModified } ]
        CommonHeaders := st.CommonHeaders
        DiffHeaders := st.DiffHeaders }
  | _, _ => none

/-- Go's `strings.ToLower` on ASCII text: the letters `A`-`Z` are mapped to `a`-`z`. -/
def toLowerASCII (s : String) : String := String.mk (s.toList.map Char.toLower)

/-! ## s3_comparer.go: the report writer -/

/-- The function `S3Comparer.write`, on a sink that accepts every byte: the data is appended. -/
def S3Comparer.write (s3c : S3Comparer) (data : String) : S3Comparer :=
  { s3c with output := s3c.output ++ data }

/-- The function `S3Comparer.jsonSeparator`: `atomic.SwapUint32(&s3c.firstJSONWritten, 1)` stores 1 and
yields the old value. -/
def S3Comparer.jsonSeparator (s3c : S3Comparer) : String × S3Comparer :=
  let firstWritten := s3c.firstJSONWritten
  let s3c1 := { s3c with firstJSONWritten := 1 }
  if firstWritten = 0 then ("[\n", s3c1) else (",\n", s3c1)

/-- The function `S3Comparer.printDiffJSON`; `jsonMarshal` stands for `json.Marshal`, an error of which
makes the function return before anything is written. -/
def S3Comparer.printDiffJSON (jsonMarshal : DiffReport → Except String String)
    (s3c : S3Comparer) (dr : DiffReport) : S3Comparer :=
  match jsonMarshal dr with
  | .error _ => s3c
  | .ok drBytes =>
    let sep := s3c.jsonSeparator
    sep.2.write (sep.1 ++ drBytes)

/-- The function `S3Comparer.printMissing`. -/
def S3Comparer.printMissing (jsonMarshal : DiffReport → Except String String)
    (s3c : S3Comparer) (bucket pfx key : String) (position : DiffObjectPosition) :
    Except Fault S3Comparer :=
  if s3c.outputFormat = OutputFormatText then
    .ok (s3c.write ("Only in s3://" ++ bucket ++ "/" ++ pfx ++ ": " ++ key ++ "\n"))
  else
    match MissingDiffReport ("s3://" ++ bucket ++ "/" ++ pfx ++ key) position with
    | .error e => .error e
    | .ok dr =>
      match jsonMarshal dr with
      | .error _ => .ok s3c
      | .ok drBytes =>
        let sep := s3c.jsonSeparator
        .ok (sep.2.write (sep.1 ++ drBytes))

/-- Lines 99-112 of `ComparePrefixes`: the step that closes the JSON structure once every
task is done. -/
def S3Comparer.closeJSON (s3c : S3Comparer) : S3Comparer :=
  if s3c.outputFormat = OutputFormatJSON then
    let firstWritten := s3c.firstJSONWritten
    let s3c1 := { s3c with firstJSONWritten := 1 }
    if firstWritten = 0 then s3c1.write "[]\n" else s3c1.write "\n]"
  else s3c

/-- One report handed to the writer: a call of `printDiffJSON` or a call of `printMissing`. -/
inductive ReportCall where
  | diff (dr : DiffReport)
  | missing (bucket pfx key : String) (position : DiffObjectPosition)

/-- The effect of one call on the comparer. -/
def S3Comparer.report (jsonMarshal : DiffReport → Except String String) (s3c : S3Comparer) :
    ReportCall → Except Fault S3Comparer
  | .diff dr => .ok (s3c.printDiffJSON jsonMarshal dr)
  | .missing bucket pfx key position => s3c.printMissing jsonMarshal bucket pfx key position

/-- The calls of a run, one after the other (the output mutex serialises them). -/
def S3Comparer.reportAll (jsonMarshal : DiffReport → Except String String) :
    S3Comparer → List ReportCall → Except Fault S3Comparer
  | s3c, [] => .ok s3c
  | s3c, c :: cs =>
    match s3c.report jsonMarshal c with
    | .ok s3c1 => S3Comparer.reportAll jsonMarshal s3c1 cs
    | .error e => .error e

/-- The report that a call serialises: the one given, or the `Missing` report built by
`MissingDiffReport`. -/
def ReportCall.toReport : ReportCall → Except Fault DiffReport
  | .diff dr => .ok dr
  | .missing bucket pfx key position =>
    MissingDiffReport ("s3://" ++ bucket ++ "/" ++ pfx ++ key) position

/-- The bytes that a call contributes after its separator, when its report serialises. -/
def ReportCall.serialised (jsonMarshal : DiffReport → Except String String)
    (c : ReportCall) : Option String :=
  match c.toReport with
  | .ok dr =>
    match jsonMarshal dr with
    | .ok drBytes => some drBytes
    | .error _ => none
  | .error _ => none

/-- The framing the specification describes for `n` serialised reports. -/
def jsonFrame (reports : List String) : String :=
  match reports with
  | [] => "[]\n"
  | _ :: _ => "[\n" ++ String.intercalate ",\n" reports ++ "\n]"

/-- Go's verb `%-.*s` of package fmt with the precision argument `prec`: the precision
limits the text to `prec` runes, a negative one counts as absent, and the flag `-` pads
only up to a width, of which this verb has none. -/
def fmtMinusPrecS (prec : Int) (s : String) : String :=
  if prec < 0 then s else String.mk (s.toList.take prec.toNat)

/-- The variables of the body loop of `printDiffText`. -/
structure TextBody where
  body : String
  path1Lines : Nat
  path2Lines : Nat
  deriving DecidableEq, Repr

/-- The body of the loop of lines 406-423, for one key of `keysSorted`. A key that is not in
`DiffHeaders` yields the `nil` slice, and indexing past a slice panics. -/
def textBodyStep (dr : DiffReport) (st : TextBody) (key : String) : Except Fault TextBody :=
  match dr.CommonHeaders.lookup key with
  | some value =>
    .ok ⟨st.body ++ " " ++ key ++ ": " ++ value ++ "\n", st.path1Lines + 1, st.path2Lines + 1⟩
  | none =>
    let values := (dr.DiffHeaders.lookup key).getD []
    match values[0]? with
    | none => .error .indexOutOfRange
    | some v0 =>
      let st1 : TextBody :=
        if v0 ≠ "" then { st with body := st.body ++ "-" ++ key ++ ": " ++ v0 ++ "\n"
                                  path1Lines := st.path1Lines + 1 }
        else st
      match values[1]? with
      | none => .error .indexOutOfRange
      | some v1 =>
        if v1 ≠ "" then
          .ok { st1 with body := st1.body ++ "+" ++ key ++ ": " ++ v1 ++ "\n"
                         path2Lines := st1.path2Lines + 1 }
        else .ok st1

/-- The loop of lines 406-423 over `keysSorted`. -/
def textBodyLoop (dr : DiffReport) : TextBody → List String → Except Fault TextBody
  | st, [] => .ok st
  | st, key :: keys =>
    match textBodyStep dr st key with
    | .ok st1 => textBodyLoop dr st1 keys
    | .error e => .error e

/-- The text that `printDiffText` builds in `all` (lines 385-429). -/
def diffText (dr : DiffReport) : Except Fault String :=
  match dr.Objects[0]?, dr.Objects[1]? with
  | some o0, some o1 =>
    let nameLen := maxint (len o0.URL) (len o1.URL)
    let all := "--- " ++ fmtMinusPrecS nameLen o0.URL ++ " " ++ o0.LastModified ++ "\n"
    let all := all ++ "+++ " ++ fmtMinusPrecS nameLen o1.URL ++ " " ++ o1.LastModified ++ "\n"
    let keysSorted := sortStrings (dr.CommonHeaders.keys ++ dr.DiffHeaders.keys)
    match textBodyLoop dr ⟨"", 0, 0⟩ keysSorted with
    | .ok b =>
      let all := all ++ "@@ -1," ++ toString b.path1Lines ++ " +1," ++
        toString b.path2Lines ++ " @@\n"
      .ok (all ++ b.body)
    | .error e => .error e
  | _, _ => .error .indexOutOfRange

/-- The function `S3Comparer.printDiffText`. -/
def S3Comparer.printDiffText (s3c : S3Comparer) (dr : DiffReport) : Except Fault S3Comparer :=
  match diffText dr with
  | .ok all => .ok (s3c.write all)
  | .error e => .error e

/-- The function `S3Comparer.printDiff`. -/
def S3Comparer.printDiff (jsonMarshal : DiffReport → Except String String)
    (s3c : S3Comparer) (dr : DiffReport) : Except Fault S3Comparer :=
  if s3c.outputFormat = OutputFormatText then s3c.printDiffText dr
  else .ok (s3c.printDiffJSON jsonMarshal dr)

/-! ## s3_async_handler.go: the lister -/

/-- What the program reads of one page (`s3.ListObjectsV2Output`): the common prefixes and
the keys of the objects. -/
structure ListPage where
  CommonPrefixes : List String
  Contents : List String
  deriving DecidableEq, Repr

/-- What one turn of the paginator loop of `asyncListPrefix` meets: a cancelled context, a
failed `Acquire`, a failed `NextPage`, or a page. -/
inductive PageFetch where
  | cancelled
  | acquireFailed (err : String)
  | nextPageFailed (err : String)
  | page (loo : ListPage)
  deriving DecidableEq, Repr

/-- The struct `asyncListPrefixResult`. -/
structure asyncListPrefixResult where
  Subprefixes : List String
  Keys : List String
  Err : Option String
  deriving DecidableEq, Repr

/-- The loops of lines 59-81 share this shape: every entry must begin with the prefix, else
the function panics, and what follows the prefix is appended to the slice. -/
def appendSuffixes (pfx : String) : List String → List String → Except Fault (List String)
  | acc, [] => .ok acc
  | acc, entry :: rest =>
    if !HasPrefix entry pfx then .error .invariantViolation
    else appendSuffixes pfx (acc ++ [sliceFrom entry pfx]) rest

/-- The paginator loop of `asyncListPrefix` and its end (lines 41-87), over the turns the
paginator takes; the list ends where `HasMorePages` turns false. `none` means the function
returned without sending a result. -/
def listLoop (pfx : String) : asyncListPrefixResult → List PageFetch →
    Except Fault (Option asyncListPrefixResult)
  | result, [] =>
    .ok (some { result with Subprefixes := sortStrings result.Subprefixes
                            Keys := sortStrings result.Keys })
  | _, .cancelled :: _ => .ok none
  | _, .acquireFailed err :: _ => .ok (some ⟨[], [], some err⟩)
  | _, .nextPageFailed err :: _ => .ok (some ⟨[], [], some err⟩)
  | result, .page loo :: rest =>
    match appendSuffixes pfx result.Subprefixes loo.CommonPrefixes with
    | .error e => .error e
    | .ok subprefixes =>
      match appendSuffixes pfx result.Keys loo.Contents with
      | .error e => .error e
      | .ok keys => listLoop pfx { result with Subprefixes := subprefixes, Keys := keys } rest

/-- The function `asyncS3Handler.asyncListPrefix`: what is sent on `doneChan`. -/
def asyncListPrefix (pfx : String) (fetches : List PageFetch) :
    Except Fault (Option asyncListPrefixResult) :=
  listLoop pfx ⟨[], [], none⟩ fetches

/-! ## utils.go of package main -/

/-- The constant `s3URLPrefix`. -/
def s3URLPrefix : String := "s3://"

/-- The separator of `parseS3URL`, the character `/`. -/
def slash : Char := Char.ofNat 47

/-- Go's `strings.SplitN(s, "/", 2)`: the text before the first `/` and the text after it,
or `s` alone when it holds no `/`. -/
def splitN2Slash (s : String) : List String :=
  match s.toList.span (fun c => c != slash) with
  | (before, []) => [String.mk before]
  | (before, _ :: after) => [String.mk before, String.mk after]

/-- The three results of `parseS3URL`; `err` is `none` for Go's `nil`. -/
structure ParsedS3URL where
  bucket : String
  key : String
  err : Option String
  deriving DecidableEq, Repr

/-- The function `parseS3URL` of utils.go; `parts[0]` on an empty slice is the Go runtime
panic. -/
def parseS3URL (s3URLString : String) : Except Fault ParsedS3URL :=
  if !HasPrefix s3URLString s3URLPrefix then
    .ok ⟨"", "", some ("S3 URL must begin with " ++ s3URLPrefix)⟩
  else
    let rest := sliceFrom s3URLString s3URLPrefix
    let parts := splitN2Slash rest
    match parts[0]? with
    | none => .error .indexOutOfRange
    | some bucket =>
      if parts.length > 1 then
        match parts[1]? with
        | none => .error .indexOutOfRange
        | some key => .ok ⟨bucket, key, none⟩
      else .ok ⟨bucket, "", none⟩

/-! ## One turn of the sub-prefix loop -/

/-- One turn of the loop of lines 177-196: `none` when the loop condition is false, else the
loop variables after the body. Used to speak of the state at each iteration. -/
def subprefixStep (bucket1 bucket2 prefix1 prefix2 : String)
    (subprefixes1 subprefixes2 : List String) (st : MergeState) :
    Except Fault (Option MergeState) :=
  if st.i < subprefixes1.length ∧ st.j < subprefixes2.length then
    match subprefixes1[st.i]?, subprefixes1[st.j]?, subprefixes2[st.j]? with
    | some s1i, some s1j, some s2j =>
      if s1i = s1j then
        .ok (some { st with
          toCompare := st.toCompare ++ [[prefix1 ++ s1i, prefix2 ++ s2j]]
          i := st.i + 1
          j := st.j + 1 })
      else if s1i < s2j then
        .ok (some { st with
          missing := st.missing ++ [⟨bucket1, prefix1, s1i, FirstObject⟩]
          i := st.i + 1 })
      else
        match subprefixes2[st.i]? with
        | some s2i =>
          .ok (some { st with
            missing := st.missing ++ [⟨bucket2, prefix2, s2i, SecondObject⟩]
            j := st.j + 1 })
        | none => .error .indexOutOfRange
    | _, _, _ => .error .indexOutOfRange
  else
    .ok none

/-- The loop variables at the start of iteration `n` of the sub-prefix loop, counted from
the given state: `none` once the loop has ended. -/
def subprefixIter (bucket1 bucket2 prefix1 prefix2 : String)
    (subprefixes1 subprefixes2 : List String) : Nat → MergeState →
    Except Fault (Option MergeState)
  | 0, st => .ok (some st)
  | n + 1, st =>
    match subprefixIter bucket1 bucket2 prefix1 prefix2 subprefixes1 subprefixes2 n st with
    | .ok (some st1) =>
      subprefixStep bucket1 bucket2 prefix1 prefix2 subprefixes1 subprefixes2 st1
    | .ok none => .ok none
    | .error e => .error e

/-! ## Lower-casing and the headers of a result as the specification words them -/

/-- Go's `unicode.ToLower` on one rune: the ASCII letters `A`-`Z` become `a`-`z`, other ASCII
runes stay, and `unicodeLower` stands for the case tables of package unicode beyond ASCII. -/
def runeToLower (unicodeLower : Char → Char) (c : Char) : Char :=
  if c.toNat < 128 then c.toLower else unicodeLower c

/-- Go's `strings.ToLower`: every rune is mapped by `unicode.ToLower`. -/
def ToLower (unicodeLower : Char → Char) (s : String) : String :=
  String.mk (s.toList.map (runeToLower unicodeLower))

/-- An optional header of a result: present only when its text is not empty. -/
def optionalHeader (p : Option String) : Option String :=
  if p.getD "" ≠ "" then some (p.getD "") else none

/-- The user metadata exposed under the header `name`: the value of the entry whose key,
after `x-amz-meta-` and lower-cased, is `name`; of two such entries the one iterated last
counts (keys that are already lower-cased, as in the data model, never meet). -/
def userMetadataHeader (unicodeLower : Char → Char) :
    List (Sigma (fun _ : String => String)) → String → Option String
  | [], _ => none
  | e :: rest, name =>
    match userMetadataHeader unicodeLower rest name with
    | some v => some v
    | none => if ToLower unicodeLower ("x-amz-meta-" ++ e.1) = name then some e.2 else none

/-- The header `name` of a metadata result, read off the fields of the result as the
specification lists them: `content-length` always, the six optional headers when present,
and each user metadata entry as `x-amz-meta-<key>` with the key lower-cased. -/
def specHeader (unicodeLower : Char → Char) (hoo : HeadObjectOutput) (name : String) :
    Option String :=
  if name = "content-length" then some (toString hoo.ContentLength)
  else if name = "cache-control" then optionalHeader hoo.CacheControl
  else if name = "content-disposition" then optionalHeader hoo.ContentDisposition
  else if name = "content-encoding" then optionalHeader hoo.ContentEncoding
  else if name = "content-language" then optionalHeader hoo.ContentLanguage
  else if name = "content-type" then optionalHeader hoo.ContentType
  else if name = "etag" then optionalHeader hoo.ETag
  else userMetadataHeader unicodeLower hoo.Metadata.entries name

/-! ## Inputs used to instantiate the theorems -/

/-- Two results that differ in `Content-Type` only. -/
def hooPlain : HeadObjectOutput :=
  ⟨3, none, none, none, none, some "text/plain", none, none, none, "t1", ∅⟩

/-- See `hooPlain`. -/
def hooHtml : HeadObjectOutput :=
  ⟨3, none, none, none, none, some "text/html", none, none, none, "t2", ∅⟩

/-- A comparer with an empty ignore set, text output and nothing written yet. -/
def s3cText : S3Comparer := ⟨∅, "", OutputFormatText, 0, "b1", "b2"⟩

/-- A comparer with an empty ignore set, JSON output and nothing written yet. -/
def s3cJSON : S3Comparer := ⟨∅, "", OutputFormatJSON, 0, "b1", "b2"⟩

/-- Two results that differ in the user metadata entry `Foo` only. -/
def hooFooOne : HeadObjectOutput :=
  ⟨3, none, none, none, none, some "text/plain", none, none, none, "t1", AList.insert "Foo" "1" ∅⟩

/-- See `hooFooOne`. -/
def hooFooTwo : HeadObjectOutput :=
  ⟨3, none, none, none, none, some "text/plain", none, none, none, "t2", AList.insert "Foo" "2" ∅⟩

/-- A report whose two URLs differ in length. -/
def drUneven : DiffReport :=
  { Typ := DiffTypeMismatch
    Objects := [⟨"s3://b1/x", "t1"⟩, ⟨"s3://b22/x", "t2"⟩]
    CommonHeaders := AList.insert "content-length" "3" ∅
    DiffHeaders := AList.insert "etag" ["", "e"]
      (AList.insert "content-type" ["text/plain", "text/html"] ∅) }

/-- The text that follows the first report: every further report after its separator.
Used in proofs only. -/
def jsonTail : List String → String
  | [] => ""
  | r :: rs => ",\n" ++ r ++ jsonTail rs

/-! ## The text rendering as the specification words it -/

/-- The body lines of one header key: one line with a blank in front for a common header,
else a `-` line for a non-empty side-1 value and a `+` line for a non-empty side-2 value. -/
def bodyLines (dr : DiffReport) (key : String) : String :=
  match dr.CommonHeaders.lookup key with
  | some value => " " ++ key ++ ": " ++ value ++ "\n"
  | none =>
    let values := (dr.DiffHeaders.lookup key).getD []
    (if values.getD 0 "" ≠ "" then "-" ++ key ++ ": " ++ values.getD 0 "" ++ "\n" else "") ++
      (if values.getD 1 "" ≠ "" then "+" ++ key ++ ": " ++ values.getD 1 "" ++ "\n" else "")

/-- The number of body lines attributable to side 1: the common headers and the entries of
`DiffHeaders` whose side-1 value is not empty. -/
def side1Lines (dr : DiffReport) : Nat :=
  dr.CommonHeaders.keys.length +
    (dr.DiffHeaders.entries.filter (fun e => decide (e.2.getD 0 "" ≠ ""))).length

/-- The number of body lines attributable to side 2. -/
def side2Lines (dr : DiffReport) : Nat :=
  dr.CommonHeaders.keys.length +
    (dr.DiffHeaders.entries.filter (fun e => decide (e.2.getD 1 "" ≠ ""))).length

/-- The lines that a key adds to `path1Lines`. Used in proofs only. -/
def count1 (dr : DiffReport) (key : String) : Nat :=
  match dr.CommonHeaders.lookup key with
  | some _ => 1
  | none => if ((dr.DiffHeaders.lookup key).getD []).getD 0 "" ≠ "" then 1 else 0

/-- The lines that a key adds to `path2Lines`. Used in proofs only. -/
def count2 (dr : DiffReport) (key : String) : Nat :=
  match dr.CommonHeaders.lookup key with
  | some _ => 1
  | none => if ((dr.DiffHeaders.lookup key).getD []).getD 1 "" ≠ "" then 1 else 0

/-! ## Proof-side description of a merge -/

/-- The merge described on the lists that lie to the right of the two cursors; the loops of
the source are shown to compute it. Used in proofs only. -/
def mergeTail (bucket1 bucket2 prefix1 prefix2 : String) :
    List String → List String → List (List String) × List MissingCall
  | [], l2 => ([], l2.map (fun s => (⟨bucket2, prefix2, s, SecondObject⟩ : MissingCall)))
  | a :: as, [] =>
    ([], (a :: as).map (fun s => (⟨bucket1, prefix1, s, FirstObject⟩ : MissingCall)))
  | a :: as, b :: bs =>
    if a = b then
      ([prefix1 ++ a, prefix2 ++ b] :: (mergeTail bucket1 bucket2 prefix1 prefix2 as bs).1,
        (mergeTail bucket1 bucket2 prefix1 prefix2 as bs).2)
    else if a < b then
      ((mergeTail bucket1 bucket2 prefix1 prefix2 as (b :: bs)).1,
        ⟨bucket1, prefix1, a, FirstObject⟩ ::
          (mergeTail bucket1 bucket2 prefix1 prefix2 as (b :: bs)).2)
    else
      ((mergeTail bucket1 bucket2 prefix1 prefix2 (a :: as) bs).1,
        ⟨bucket2, prefix2, b, SecondObject⟩ ::
          (mergeTail bucket1 bucket2 prefix1 prefix2 (a :: as) bs).2)
termination_by l1 l2 => l1.length + l2.length

/-! ## Theorems -/

section MergeLemmas

variable (bucket1 bucket2 prefix1 prefix2 : String)

theorem mergeTail_cons_eq (a : String) (as bs : List String) :
    mergeTail bucket1 bucket2 prefix1 prefix2 (a :: as) (a :: bs) =
      ([prefix1 ++ a, prefix2 ++ a] :: (mergeTail bucket1 bucket2 prefix1 prefix2 as bs).1,
        (mergeTail bucket1 bucket2 prefix1 prefix2 as bs).2) := by
  rw [mergeTail]; simp

theorem mergeTail_cons_lt (a b : String) (as bs : List String) (hlt : a < b) :
    mergeTail bucket1 bucket2 prefix1 prefix2 (a :: as) (b :: bs) =
      ((mergeTail bucket1 bucket2 prefix1 prefix2 as (b :: bs)).1,
        ⟨bucket1, prefix1, a, FirstObject⟩ ::
          (mergeTail bucket1 bucket2 prefix1 prefix2 as (b :: bs)).2) := by
  rw [mergeTail]; simp [hlt, ne_of_lt hlt]

theorem mergeTail_cons_gt (a b : String) (as bs : List String) (hne : a ≠ b) (hlt : ¬ a < b) :
    mergeTail bucket1 bucket2 prefix1 prefix2 (a :: as) (b :: bs) =
      ((mergeTail bucket1 bucket2 prefix1 prefix2 (a :: as) bs).1,
        ⟨bucket2, prefix2, b, SecondObject⟩ ::
          (mergeTail bucket1 bucket2 prefix1 prefix2 (a :: as) bs).2) := by
  rw [mergeTail]; simp [hlt, hne]

theorem drainLoops_at_exit (l1 l2 : List String) (st : MergeState)
    (hg : ¬ (st.i < l1.length ∧ st.j < l2.length)) :
    (drainLoops bucket1 bucket2 prefix1 prefix2 l1 l2 st).toCompare =
        st.toCompare ++
          (mergeTail bucket1 bucket2 prefix1 prefix2 (l1.drop st.i) (l2.drop st.j)).1 ∧
      (drainLoops bucket1 bucket2 prefix1 prefix2 l1 l2 st).missing =
        st.missing ++
          (mergeTail bucket1 bucket2 prefix1 prefix2 (l1.drop st.i) (l2.drop st.j)).2 := by
  by_cases hi : st.i < l1.length
  · have hj : l2.length ≤ st.j := by omega
    have hd2 : l2.drop st.j = [] := List.drop_eq_nil_of_le hj
    obtain ⟨a, as, hd1⟩ : ∃ a as, l1.drop st.i = a :: as :=
      ⟨l1[st.i], l1.drop (st.i + 1), List.drop_eq_getElem_cons hi⟩
    simp [drainLoops, hd1, hd2, mergeTail]
  · have hd1 : l1.drop st.i = [] := List.drop_eq_nil_of_le (by omega)
    simp [drainLoops, hd1, mergeTail]

theorem keyLoop_drain (keys1 keys2 : List String) :
    ∀ (fuel : Nat) (st : MergeState),
      (keys1.length - st.i) + (keys2.length - st.j) ≤ fuel →
      ∃ st1, keyLoop bucket1 bucket2 prefix1 prefix2 keys1 keys2 fuel st = .ok st1 ∧
        (drainLoops bucket1 bucket2 prefix1 prefix2 keys1 keys2 st1).toCompare =
          st.toCompare ++
            (mergeTail bucket1 bucket2 prefix1 prefix2 (keys1.drop st.i) (keys2.drop st.j)).1 ∧
        (drainLoops bucket1 bucket2 prefix1 prefix2 keys1 keys2 st1).missing =
          st.missing ++
            (mergeTail bucket1 bucket2 prefix1 prefix2 (keys1.drop st.i) (keys2.drop st.j)).2 := by
  intro fuel
  induction fuel with
  | zero =>
    intro st hfuel
    have hg : ¬ (st.i < keys1.length ∧ st.j < keys2.length) := by omega
    refine ⟨st, ?_, drainLoops_at_exit bucket1 bucket2 prefix1 prefix2 keys1 keys2 st hg⟩
    unfold keyLoop; simp [hg]
  | succ fuel ih =>
    intro st hfuel
    by_cases hg : st.i < keys1.length ∧ st.j < keys2.length
    · obtain ⟨hi, hj⟩ := hg
      have hd1 : keys1.drop st.i = keys1[st.i] :: keys1.drop (st.i + 1) :=
        List.drop_eq_getElem_cons hi
      have hd2 : keys2.drop st.j = keys2[st.j] :: keys2.drop (st.j + 1) :=
        List.drop_eq_getElem_cons hj
      unfold keyLoop
      simp only [hi, hj, and_self, if_true, List.getElem?_eq_getElem]
      rw [hd1, hd2]
      by_cases heq : keys1[st.i] = keys2[st.j]
      · obtain ⟨st1, hrun, hc, hm⟩ := ih
          { st with
            toCompare := st.toCompare ++ [[prefix1 ++ keys1[st.i], prefix2 ++ keys2[st.j]]]
            i := st.i + 1
            j := st.j + 1 } (by simp only; omega)
        refine ⟨st1, ?_, ?_, ?_⟩
        · simp only [heq, if_true] at hrun ⊢; exact hrun
        · rw [hc, heq, mergeTail_cons_eq]; simp
        · rw [hm, heq, mergeTail_cons_eq]
      · by_cases hlt : keys1[st.i] < keys2[st.j]
        · obtain ⟨st1, hrun, hc, hm⟩ := ih
            { st with
              missing := st.missing ++ [⟨bucket1, prefix1, keys1[st.i], FirstObject⟩]
              i := st.i + 1 } (by simp only; omega)
          refine ⟨st1, ?_, ?_, ?_⟩
          · simp only [heq, hlt, if_true, if_false] at hrun ⊢; exact hrun
          · rw [hc, mergeTail_cons_lt _ _ _ _ _ _ _ _ hlt]; simp only [hd2]
          · rw [hm, mergeTail_cons_lt _ _ _ _ _ _ _ _ hlt]; simp only [hd2, List.append_assoc,
              List.singleton_append]
        · obtain ⟨st1, hrun, hc, hm⟩ := ih
            { st with
              missing := st.missing ++ [⟨bucket2, prefix2, keys2[st.j], SecondObject⟩]
              j := st.j + 1 } (by simp only; omega)
          refine ⟨st1, ?_, ?_, ?_⟩
          · simp only [heq, hlt, if_true, if_false] at hrun ⊢; exact hrun
          · rw [hc, mergeTail_cons_gt _ _ _ _ _ _ _ _ heq hlt]; simp only [hd1]
          · rw [hm, mergeTail_cons_gt _ _ _ _ _ _ _ _ heq hlt]; simp only [hd1, List.append_assoc,
              List.singleton_append]
    · refine ⟨st, ?_, drainLoops_at_exit bucket1 bucket2 prefix1 prefix2 keys1 keys2 st hg⟩
      unfold keyLoop; simp [hg]

theorem mergeTail_toCompare (l1 l2 : List String)
    (h1 : l1.Sorted (fun a b => a < b)) (h2 : l2.Sorted (fun a b => a < b)) :
    (mergeTail bucket1 bucket2 prefix1 prefix2 l1 l2).1 =
      (l1.filter (fun k => decide (k ∈ l2))).map (fun k => [prefix1 ++ k, prefix2 ++ k]) := by
  induction l1 generalizing l2 with
  | nil => simp [mergeTail]
  | cons a as ih1 =>
    obtain ⟨ha, has⟩ := List.sorted_cons.1 h1
    induction l2 with
    | nil => simp [mergeTail]
    | cons b bs ih2 =>
      obtain ⟨hb, hbs⟩ := List.sorted_cons.1 h2
      by_cases heq : a = b
      · subst heq
        rw [mergeTail_cons_eq, ih1 bs has hbs]
        have hfil : as.filter (fun k => decide (k ∈ a :: bs)) =
            as.filter (fun k => decide (k ∈ bs)) := by
          apply List.filter_congr
          intro x hx
          have : x ≠ a := ne_of_gt (ha x hx)
          simp [this]
        rw [List.filter_cons_of_pos (by simp), hfil, List.map_cons]
      · by_cases hlt : a < b
        · rw [mergeTail_cons_lt _ _ _ _ _ _ _ _ hlt, ih1 (b :: bs) has h2]
          have hnot : a ∉ b :: bs := by
            intro hmem
            rcases List.mem_cons.1 hmem with h | h
            · exact heq h
            · exact absurd (lt_trans hlt (hb a h)) (lt_irrefl a)
          rw [List.filter_cons_of_neg (by simpa using hnot)]
        · have hgt : b < a := lt_of_le_of_ne (not_lt.1 hlt) (Ne.symm heq)
          rw [mergeTail_cons_gt _ _ _ _ _ _ _ _ heq hlt, ih2 hbs]
          congr 1
          apply List.filter_congr
          intro x hx
          have hxb : x ≠ b := by
            rcases List.mem_cons.1 hx with h | h
            · rw [h]; exact heq
            · exact ne_of_gt (lt_trans hgt (ha x h))
          simp [hxb]

theorem mergeTail_missing_mem (l1 l2 : List String)
    (h1 : l1.Sorted (fun a b => a < b)) (h2 : l2.Sorted (fun a b => a < b)) (m : MissingCall) :
    m ∈ (mergeTail bucket1 bucket2 prefix1 prefix2 l1 l2).2 ↔
      (∃ k, k ∈ l1 ∧ k ∉ l2 ∧ m = ⟨bucket1, prefix1, k, FirstObject⟩) ∨
      (∃ k, k ∈ l2 ∧ k ∉ l1 ∧ m = ⟨bucket2, prefix2, k, SecondObject⟩) := by
  induction l1 generalizing l2 with
  | nil =>
    simp only [mergeTail, List.mem_map, List.not_mem_nil, false_and, exists_false, false_or,
      not_false_eq_true, true_and]
    constructor
    · rintro ⟨k, hk, rfl⟩; exact ⟨k, hk, rfl⟩
    · rintro ⟨k, hk, rfl⟩; exact ⟨k, hk, rfl⟩
  | cons a as ih1 =>
    obtain ⟨ha, has⟩ := List.sorted_cons.1 h1
    induction l2 with
    | nil =>
      simp only [mergeTail, List.mem_map, List.not_mem_nil, false_and, exists_false, or_false,
        not_false_eq_true, true_and]
      constructor
      · rintro ⟨k, hk, rfl⟩; exact ⟨k, hk, rfl⟩
      · rintro ⟨k, hk, rfl⟩; exact ⟨k, hk, rfl⟩
    | cons b bs ih2 =>
      obtain ⟨hb, hbs⟩ := List.sorted_cons.1 h2
      by_cases heq : a = b
      · subst heq
        rw [mergeTail_cons_eq]
        simp only
        rw [ih1 bs has hbs]
        constructor
        · rintro (⟨k, hk1, hk2, rfl⟩ | ⟨k, hk1, hk2, rfl⟩)
          · refine Or.inl ⟨k, List.mem_cons_of_mem _ hk1, ?_, rfl⟩
            intro hmem
            rcases List.mem_cons.1 hmem with h | h
            · exact absurd (ha k hk1) (h ▸ lt_irrefl a)
            · exact hk2 h
          · refine Or.inr ⟨k, List.mem_cons_of_mem _ hk1, ?_, rfl⟩
            intro hmem
            rcases List.mem_cons.1 hmem with h | h
            · exact absurd (hb k hk1) (h ▸ lt_irrefl a)
            · exact hk2 h
        · rintro (⟨k, hk1, hk2, rfl⟩ | ⟨k, hk1, hk2, rfl⟩)
          · rcases List.mem_cons.1 hk1 with h | h
            · exact absurd (h ▸ List.mem_cons_self a bs) hk2
            · exact Or.inl ⟨k, h, fun hm => hk2 (List.mem_cons_of_mem _ hm), rfl⟩
          · rcases List.mem_cons.1 hk1 with h | h
            · exact absurd (h ▸ List.mem_cons_self a as) hk2
            · exact Or.inr ⟨k, h, fun hm => hk2 (List.mem_cons_of_mem _ hm), rfl⟩
      · by_cases hlt : a < b
        · have hnot : a ∉ b :: bs := by
            intro hmem
            rcases List.mem_cons.1 hmem with h | h
            · exact heq h
            · exact absurd (lt_trans hlt (hb a h)) (lt_irrefl a)
          rw [mergeTail_cons_lt _ _ _ _ _ _ _ _ hlt]
          show m ∈ _ :: _ ↔ _
          rw [List.mem_cons, ih1 (b :: bs) has h2]
          constructor
          · rintro (rfl | ⟨k, hk1, hk2, rfl⟩ | ⟨k, hk1, hk2, rfl⟩)
            · exact Or.inl ⟨a, List.mem_cons_self a as, hnot, rfl⟩
            · exact Or.inl ⟨k, List.mem_cons_of_mem _ hk1, hk2, rfl⟩
            · refine Or.inr ⟨k, hk1, ?_, rfl⟩
              intro hmem
              rcases List.mem_cons.1 hmem with h | h
              · exact hnot (h ▸ hk1)
              · exact hk2 h
          · rintro (⟨k, hk1, hk2, rfl⟩ | ⟨k, hk1, hk2, rfl⟩)
            · rcases List.mem_cons.1 hk1 with h | h
              · exact Or.inl (by rw [h])
              · exact Or.inr (Or.inl ⟨k, h, hk2, rfl⟩)
            · exact Or.inr (Or.inr ⟨k, hk1, fun hm => hk2 (List.mem_cons_of_mem _ hm), rfl⟩)
        · have hgt : b < a := lt_of_le_of_ne (not_lt.1 hlt) (Ne.symm heq)
          have hnot : b ∉ a :: as := by
            intro hmem
            rcases List.mem_cons.1 hmem with h | h
            · exact heq h.symm
            · exact absurd (lt_trans hgt (ha b h)) (lt_irrefl b)
          rw [mergeTail_cons_gt _ _ _ _ _ _ _ _ heq hlt]
          show m ∈ _ :: _ ↔ _
          rw [List.mem_cons, ih2 hbs]
          constructor
          · rintro (rfl | ⟨k, hk1, hk2, rfl⟩ | ⟨k, hk1, hk2, rfl⟩)
            · exact Or.inr ⟨b, List.mem_cons_self b bs, hnot, rfl⟩
            · refine Or.inl ⟨k, hk1, ?_, rfl⟩
              intro hmem
              rcases List.mem_cons.1 hmem with h | h
              · exact hnot (h ▸ hk1)
              · exact hk2 h
            · exact Or.inr ⟨k, List.mem_cons_of_mem _ hk1, hk2, rfl⟩
          · rintro (⟨k, hk1, hk2, rfl⟩ | ⟨k, hk1, hk2, rfl⟩)
            · exact Or.inr (Or.inl ⟨k, hk1, fun hm => hk2 (List.mem_cons_of_mem _ hm), rfl⟩)
            · rcases List.mem_cons.1 hk1 with h | h
              · exact Or.inl (by rw [h])
              · exact Or.inr (Or.inr ⟨k, h, hk2, rfl⟩)

theorem mergeTail_missing_key (l1 l2 : List String)
    (h1 : l1.Sorted (fun a b => a < b)) (h2 : l2.Sorted (fun a b => a < b)) (x : String)
    (hx : x ∈ (mergeTail bucket1 bucket2 prefix1 prefix2 l1 l2).2.map (fun m => m.key)) :
    x ∈ l1 ∨ x ∈ l2 := by
  obtain ⟨m, hm, rfl⟩ := List.mem_map.1 hx
  rcases (mergeTail_missing_mem bucket1 bucket2 prefix1 prefix2 l1 l2 h1 h2 m).1 hm with
    ⟨k, hk, _, rfl⟩ | ⟨k, hk, _, rfl⟩
  · exact Or.inl hk
  · exact Or.inr hk

theorem mergeTail_missing_sorted (l1 l2 : List String)
    (h1 : l1.Sorted (fun a b => a < b)) (h2 : l2.Sorted (fun a b => a < b)) :
    ((mergeTail bucket1 bucket2 prefix1 prefix2 l1 l2).2.map (fun m => m.key)).Sorted
      (fun a b => a < b) := by
  induction l1 generalizing l2 with
  | nil =>
    have hmap : (mergeTail bucket1 bucket2 prefix1 prefix2 [] l2).2.map (fun m => m.key) = l2 := by
      simp [mergeTail, Function.comp_def]
    rw [hmap]; exact h2
  | cons a as ih1 =>
    obtain ⟨ha, has⟩ := List.sorted_cons.1 h1
    induction l2 with
    | nil =>
      have hmap : (mergeTail bucket1 bucket2 prefix1 prefix2 (a :: as) []).2.map
          (fun m => m.key) = a :: as := by
        simp [mergeTail, Function.comp_def]
      rw [hmap]; exact h1
    | cons b bs ih2 =>
      obtain ⟨hb, hbs⟩ := List.sorted_cons.1 h2
      by_cases heq : a = b
      · subst heq
        rw [mergeTail_cons_eq]
        exact ih1 bs has hbs
      · by_cases hlt : a < b
        · rw [mergeTail_cons_lt _ _ _ _ _ _ _ _ hlt]
          show List.Sorted _ (List.map _ (_ :: _))
          rw [List.map_cons]
          refine List.sorted_cons.2 ⟨?_, ih1 (b :: bs) has h2⟩
          intro x hx
          rcases mergeTail_missing_key bucket1 bucket2 prefix1 prefix2 as (b :: bs) has h2 x hx
            with h | h
          · exact ha x h
          · rcases List.mem_cons.1 h with h | h
            · rw [h]; exact hlt
            · exact lt_trans hlt (hb x h)
        · have hgt : b < a := lt_of_le_of_ne (not_lt.1 hlt) (Ne.symm heq)
          rw [mergeTail_cons_gt _ _ _ _ _ _ _ _ heq hlt]
          show List.Sorted _ (List.map _ (_ :: _))
          rw [List.map_cons]
          refine List.sorted_cons.2 ⟨?_, ih2 hbs⟩
          intro x hx
          rcases mergeTail_missing_key bucket1 bucket2 prefix1 prefix2 (a :: as) bs h1 hbs x hx
            with h | h
          · rcases List.mem_cons.1 h with h | h
            · rw [h]; exact hgt
            · exact lt_trans hgt (ha x h)
          · exact hb x h

theorem mergeKeys_eq_mergeTail (keys1 keys2 : List String) :
    mergeKeys bucket1 bucket2 prefix1 prefix2 keys1 keys2 =
      .ok ⟨(mergeTail bucket1 bucket2 prefix1 prefix2 keys1 keys2).1,
        (mergeTail bucket1 bucket2 prefix1 prefix2 keys1 keys2).2⟩ := by
  obtain ⟨st1, hrun, hc, hm⟩ := keyLoop_drain bucket1 bucket2 prefix1 prefix2 keys1 keys2
    (keys1.length + keys2.length) ⟨0, 0, [], []⟩ (by simp)
  unfold mergeKeys
  rw [hrun]
  simp only [hc, hm, List.drop_zero, List.nil_append]

end MergeLemmas

/-- C1: for strictly ascending key-suffix lists the key merge of `asyncComparePrefixes`
returns, and `keysToCompare` is the list of pairs `(prefix1+k, prefix2+k)` for the suffixes
`k` of `keys1` that are also in `keys2`, in ascending order and each once; the `printMissing`
calls are exactly the suffixes found in one list only, with side 1 (`FirstObject`) for a
suffix only in `keys1` and side 2 (`SecondObject`) for one only in `keys2`, and their
suffixes come out strictly ascending (hence each once). -/
theorem mergeKeys_exact (bucket1 bucket2 prefix1 prefix2 : String) (keys1 keys2 : List String)
    (h1 : keys1.Sorted (fun a b => a < b)) (h2 : keys2.Sorted (fun a b => a < b)) :
    ∃ r : MergeResult,
      mergeKeys bucket1 bucket2 prefix1 prefix2 keys1 keys2 = .ok r ∧
      r.toCompare = (keys1.filter (fun k => decide (k ∈ keys2))).map
        (fun k => [prefix1 ++ k, prefix2 ++ k]) ∧
      (keys1.filter (fun k => decide (k ∈ keys2))).Sorted (fun a b => a < b) ∧
      (∀ m : MissingCall, m ∈ r.missing ↔
        (∃ k, k ∈ keys1 ∧ k ∉ keys2 ∧ m = ⟨bucket1, prefix1, k, FirstObject⟩) ∨
        (∃ k, k ∈ keys2 ∧ k ∉ keys1 ∧ m = ⟨bucket2, prefix2, k, SecondObject⟩)) ∧
      (r.missing.map (fun m => m.key)).Sorted (fun a b => a < b) :=
  ⟨_, mergeKeys_eq_mergeTail bucket1 bucket2 prefix1 prefix2 keys1 keys2,
    mergeTail_toCompare bucket1 bucket2 prefix1 prefix2 keys1 keys2 h1 h2,
    List.Sorted.filter _ h1,
    mergeTail_missing_mem bucket1 bucket2 prefix1 prefix2 keys1 keys2 h1 h2,
    mergeTail_missing_sorted bucket1 bucket2 prefix1 prefix2 keys1 keys2 h1 h2⟩

/-- C1, at the scenario of the specification: side 1 lists `a, b`, side 2 lists `b, c`. -/
theorem mergeKeys_exact_witness :
    (["a", "b"] : List String).Sorted (fun a b => a < b) ∧
    (["b", "c"] : List String).Sorted (fun a b => a < b) ∧
    ∃ r : MergeResult,
      mergeKeys "b1" "b2" "p/" "q/" ["a", "b"] ["b", "c"] = .ok r ∧
      r.toCompare = ((["a", "b"] : List String).filter (fun k => decide (k ∈ ["b", "c"]))).map
        (fun k => ["p/" ++ k, "q/" ++ k]) ∧
      ((["a", "b"] : List String).filter (fun k => decide (k ∈ ["b", "c"]))).Sorted
        (fun a b => a < b) ∧
      (∀ m : MissingCall, m ∈ r.missing ↔
        (∃ k, k ∈ ["a", "b"] ∧ k ∉ ["b", "c"] ∧ m = ⟨"b1", "p/", k, FirstObject⟩) ∨
        (∃ k, k ∈ ["b", "c"] ∧ k ∉ ["a", "b"] ∧ m = ⟨"b2", "q/", k, SecondObject⟩)) ∧
      (r.missing.map (fun m => m.key)).Sorted (fun a b => a < b) :=
  ⟨by decide, by decide,
    mergeKeys_exact "b1" "b2" "p/" "q/" ["a", "b"] ["b", "c"] (by decide) (by decide)⟩


section HeaderLemmas

variable (s3c : S3Comparer)

theorem found_and_eq_iff (h2 : Headers) (key value1 : String) :
    ((h2.lookup key).isSome && decide (value1 = (h2.lookup key).getD "")) = true ↔
      h2.lookup key = some value1 := by
  cases hl : h2.lookup key with
  | none => simp
  | some v2 =>
    simp only [Option.isSome_some, Option.getD_some, Bool.true_and, decide_eq_true_eq,
      Option.some.injEq]
    exact eq_comm

theorem firstLoopBody_eq (st : DiffState) (e : Sigma (fun _ : String => String)) :
    firstLoopBody s3c st e =
      if st.headers2.lookup e.1 = some e.2 then
        { CommonHeaders := st.CommonHeaders.insert e.1 e.2
          DiffHeaders := st.DiffHeaders
          diffsFound := st.diffsFound
          headers2 := st.headers2.erase e.1 }
      else
        { CommonHeaders := st.CommonHeaders
          DiffHeaders := st.DiffHeaders.insert e.1 [e.2, (st.headers2.lookup e.1).getD ""]
          diffsFound := !s3c.isIgnored e.1 || st.diffsFound
          headers2 :=
            if (st.headers2.lookup e.1).isSome then st.headers2.erase e.1 else st.headers2 } := by
  unfold firstLoopBody
  cases hl : st.headers2.lookup e.1 with
  | none => simp [hl]
  | some v2 =>
    by_cases hv : e.2 = v2
    · simp [hl, hv]
    · have hv2 : ¬ v2 = e.2 := fun h => hv h.symm
      simp [hl, hv, hv2]

theorem firstLoopBody_headers2 (st : DiffState) (e : Sigma (fun _ : String => String))
    (k : String) :
    (firstLoopBody s3c st e).headers2.lookup k =
      if k = e.1 then none else st.headers2.lookup k := by
  rw [firstLoopBody_eq]
  by_cases hk : k = e.1
  · subst hk
    cases hl : st.headers2.lookup e.1 with
    | none => simp [hl]
    | some v2 => split <;> simp [AList.lookup_erase]
  · simp only [hk, if_false]
    cases hl : st.headers2.lookup e.1 with
    | none => simp
    | some v2 => split <;> simp [AList.lookup_erase_ne hk]

theorem firstLoopBody_common (st : DiffState) (e : Sigma (fun _ : String => String))
    (k : String) :
    (firstLoopBody s3c st e).CommonHeaders.lookup k =
      if k = e.1 ∧ st.headers2.lookup e.1 = some e.2 then some e.2
      else st.CommonHeaders.lookup k := by
  rw [firstLoopBody_eq]
  by_cases hcond : st.headers2.lookup e.1 = some e.2
  · by_cases hk : k = e.1
    · subst hk; simp [hcond, AList.lookup_insert]
    · simp [hcond, hk, AList.lookup_insert_ne hk]
  · simp [hcond]

theorem firstLoopBody_diff (st : DiffState) (e : Sigma (fun _ : String => String))
    (k : String) :
    (firstLoopBody s3c st e).DiffHeaders.lookup k =
      if k = e.1 ∧ st.headers2.lookup e.1 ≠ some e.2 then
        some [e.2, (st.headers2.lookup e.1).getD ""]
      else st.DiffHeaders.lookup k := by
  rw [firstLoopBody_eq]
  by_cases hcond : st.headers2.lookup e.1 = some e.2
  · simp [hcond]
  · by_cases hk : k = e.1
    · subst hk; simp [hcond, AList.lookup_insert]
    · simp [hcond, hk, AList.lookup_insert_ne hk]

theorem firstLoopBody_diffsFound (st : DiffState) (e : Sigma (fun _ : String => String)) :
    (firstLoopBody s3c st e).diffsFound = true ↔
      st.diffsFound = true ∨
        (st.headers2.lookup e.1 ≠ some e.2 ∧ s3c.isIgnored e.1 = false) := by
  rw [firstLoopBody_eq]
  by_cases hcond : st.headers2.lookup e.1 = some e.2
  · simp [hcond]
  · simp only [hcond, if_false, ne_eq, not_false_eq_true, true_and, Bool.or_eq_true,
      Bool.not_eq_true']
    exact or_comm

theorem firstLoop_spec (l : List (Sigma (fun _ : String => String))) :
    ∀ (_ : l.NodupKeys) (st : DiffState),
      (∀ k, (l.foldl (firstLoopBody s3c) st).headers2.lookup k =
        if k ∈ l.keys then none else st.headers2.lookup k) ∧
      (∀ k, (l.foldl (firstLoopBody s3c) st).CommonHeaders.lookup k =
        if (l.dlookup k).isSome ∧ l.dlookup k = st.headers2.lookup k then l.dlookup k
        else st.CommonHeaders.lookup k) ∧
      (∀ k, (l.foldl (firstLoopBody s3c) st).DiffHeaders.lookup k =
        if (l.dlookup k).isSome ∧ l.dlookup k ≠ st.headers2.lookup k then
          some [(l.dlookup k).getD "", (st.headers2.lookup k).getD ""]
        else st.DiffHeaders.lookup k) ∧
      ((l.foldl (firstLoopBody s3c) st).diffsFound = true ↔
        st.diffsFound = true ∨
          ∃ e ∈ l, st.headers2.lookup e.1 ≠ some e.2 ∧ s3c.isIgnored e.1 = false) := by
  induction l with
  | nil => intro _ st; simp
  | cons e l ih =>
    intro hnd st
    obtain ⟨hnot, hndl⟩ := List.nodupKeys_cons.1 hnd
    obtain ⟨ih1, ih2, ih3, ih4⟩ := ih hndl (firstLoopBody s3c st e)
    have hnone : l.dlookup e.1 = none := List.dlookup_eq_none.2 hnot
    have hhead : (e :: l).dlookup e.1 = some e.2 := by
      cases e; exact List.dlookup_cons_eq _ _ _
    have hrest : ∀ k, k ≠ e.1 → st.headers2.lookup k =
        (firstLoopBody s3c st e).headers2.lookup k := by
      intro k hk; rw [firstLoopBody_headers2]; simp [hk]
    rw [List.foldl_cons]
    refine ⟨?_, ?_, ?_, ?_⟩
    · intro k
      rw [ih1 k, firstLoopBody_headers2]
      by_cases hk : k = e.1
      · subst hk; simp
      · simp [hk, List.keys_cons]
    · intro k
      rw [ih2 k, firstLoopBody_common]
      by_cases hk : k = e.1
      · subst hk
        rw [hnone, hhead]
        simp [eq_comm]
      · rw [List.dlookup_cons_ne _ _ hk, ← hrest k hk]
        simp [hk]
    · intro k
      rw [ih3 k, firstLoopBody_diff]
      by_cases hk : k = e.1
      · subst hk
        rw [hnone, hhead]
        simp [eq_comm]
      · rw [List.dlookup_cons_ne _ _ hk, ← hrest k hk]
        simp [hk]
    · rw [ih4, firstLoopBody_diffsFound]
      constructor
      · rintro ((h | h) | ⟨e1, he1, h1, h2⟩)
        · exact Or.inl h
        · exact Or.inr ⟨e, List.mem_cons_self _ _, h⟩
        · refine Or.inr ⟨e1, List.mem_cons_of_mem _ he1, ?_, h2⟩
          have hne : e1.1 ≠ e.1 := fun h => hnot (h ▸ List.mem_keys_of_mem he1)
          rw [hrest e1.1 hne]; exact h1
      · rintro (h | ⟨e1, he1, h1, h2⟩)
        · exact Or.inl (Or.inl h)
        · rcases List.mem_cons.1 he1 with h | h
          · subst h; exact Or.inl (Or.inr ⟨h1, h2⟩)
          · refine Or.inr ⟨e1, h, ?_, h2⟩
            have hne : e1.1 ≠ e.1 := fun h3 => hnot (h3 ▸ List.mem_keys_of_mem h)
            rw [← hrest e1.1 hne]; exact h1

theorem secondLoop_spec (l : List (Sigma (fun _ : String => String))) :
    ∀ (_ : l.NodupKeys) (st : DiffState),
      (l.foldl (secondLoopBody s3c) st).CommonHeaders = st.CommonHeaders ∧
      (∀ k, (l.foldl (secondLoopBody s3c) st).DiffHeaders.lookup k =
        if (l.dlookup k).isSome then some ["", (l.dlookup k).getD ""]
        else st.DiffHeaders.lookup k) ∧
      ((l.foldl (secondLoopBody s3c) st).diffsFound = true ↔
        st.diffsFound = true ∨ ∃ e ∈ l, s3c.isIgnored e.1 = false) := by
  induction l with
  | nil => intro _ st; simp
  | cons e l ih =>
    intro hnd st
    obtain ⟨hnot, hndl⟩ := List.nodupKeys_cons.1 hnd
    obtain ⟨ih1, ih2, ih3⟩ := ih hndl (secondLoopBody s3c st e)
    have hnone : l.dlookup e.1 = none := List.dlookup_eq_none.2 hnot
    have hhead : (e :: l).dlookup e.1 = some e.2 := by
      cases e; exact List.dlookup_cons_eq _ _ _
    rw [List.foldl_cons]
    refine ⟨by rw [ih1]; rfl, ?_, ?_⟩
    · intro k
      rw [ih2 k]
      by_cases hk : k = e.1
      · subst hk
        rw [hnone, hhead]
        simp [secondLoopBody, AList.lookup_insert]
      · rw [List.dlookup_cons_ne _ _ hk]
        simp [secondLoopBody, AList.lookup_insert_ne hk]
    · rw [ih3]
      have hstep : (secondLoopBody s3c st e).diffsFound = true ↔
          st.diffsFound = true ∨ s3c.isIgnored e.1 = false := by
        unfold secondLoopBody
        cases hig : s3c.isIgnored e.1 <;> simp
      rw [hstep]
      constructor
      · rintro ((h | h) | ⟨e1, he1, h1⟩)
        · exact Or.inl h
        · exact Or.inr ⟨e, List.mem_cons_self _ _, h⟩
        · exact Or.inr ⟨e1, List.mem_cons_of_mem _ he1, h1⟩
      · rintro (h | ⟨e1, he1, h1⟩)
        · exact Or.inl (Or.inl h)
        · rcases List.mem_cons.1 he1 with h | h
          · subst h; exact Or.inl (Or.inr h1)
          · exact Or.inr ⟨e1, h, h1⟩

theorem compareHeaders_common (headers1 headers2 : Headers) (k : String) :
    (compareHeaders s3c headers1 headers2).CommonHeaders.lookup k =
      if (headers1.lookup k).isSome ∧ headers1.lookup k = headers2.lookup k then
        headers1.lookup k
      else none := by
  unfold compareHeaders
  obtain ⟨_, h2, _, _⟩ := firstLoop_spec s3c headers1.entries headers1.nodupKeys
    ⟨∅, ∅, false, headers2⟩
  obtain ⟨g1, _, _⟩ := secondLoop_spec s3c
    (headers1.entries.foldl (firstLoopBody s3c) ⟨∅, ∅, false, headers2⟩).headers2.entries
    (AList.nodupKeys _) (headers1.entries.foldl (firstLoopBody s3c) ⟨∅, ∅, false, headers2⟩)
  simp only [g1, h2 k]
  rfl

theorem compareHeaders_diff (headers1 headers2 : Headers) (k : String) :
    (compareHeaders s3c headers1 headers2).DiffHeaders.lookup k =
      if headers1.lookup k = headers2.lookup k then none
      else some [(headers1.lookup k).getD "", (headers2.lookup k).getD ""] := by
  unfold compareHeaders
  obtain ⟨h1, _, h3, _⟩ := firstLoop_spec s3c headers1.entries headers1.nodupKeys
    ⟨∅, ∅, false, headers2⟩
  obtain ⟨_, g2, _⟩ := secondLoop_spec s3c
    (headers1.entries.foldl (firstLoopBody s3c) ⟨∅, ∅, false, headers2⟩).headers2.entries
    (AList.nodupKeys _) (headers1.entries.foldl (firstLoopBody s3c) ⟨∅, ∅, false, headers2⟩)
  have hl : ∀ (m : Headers), m.entries.dlookup k = m.lookup k := fun _ => rfl
  simp only [g2 k, hl, h1 k, h3 k]
  have hkeys : k ∈ headers1.entries.keys ↔ (headers1.lookup k).isSome = true := by
    rw [AList.lookup_isSome, AList.mem_keys]; rfl
  cases hv1 : headers1.lookup k with
  | none =>
    have hk : k ∉ headers1.entries.keys := by rw [hkeys, hv1]; simp
    cases hv2 : headers2.lookup k <;> simp [hk, hv2]
  | some v1 =>
    have hk : k ∈ headers1.entries.keys := by rw [hkeys, hv1]; simp
    cases hv2 : headers2.lookup k <;> simp [hk, hv2]

theorem compareHeaders_diffsFound (headers1 headers2 : Headers) :
    (compareHeaders s3c headers1 headers2).diffsFound = true ↔
      ∃ k, headers1.lookup k ≠ headers2.lookup k ∧ s3c.isIgnored k = false := by
  unfold compareHeaders
  obtain ⟨h1, _, _, h4⟩ := firstLoop_spec s3c headers1.entries headers1.nodupKeys
    ⟨∅, ∅, false, headers2⟩
  obtain ⟨_, _, g3⟩ := secondLoop_spec s3c
    (headers1.entries.foldl (firstLoopBody s3c) ⟨∅, ∅, false, headers2⟩).headers2.entries
    (AList.nodupKeys _) (headers1.entries.foldl (firstLoopBody s3c) ⟨∅, ∅, false, headers2⟩)
  have hkeys : ∀ k, k ∈ headers1.entries.keys ↔ (headers1.lookup k).isSome = true := by
    intro k; rw [AList.lookup_isSome, AList.mem_keys]; rfl
  simp only [g3, h4]
  constructor
  · rintro ((h | ⟨e, he, hne, hig⟩) | ⟨e, he, hig⟩)
    · exact absurd h (by simp)
    · refine ⟨e.1, ?_, hig⟩
      have hl : headers1.lookup e.1 = some e.2 :=
        List.mem_dlookup headers1.nodupKeys (by cases e; exact he)
      rw [hl]; exact fun h => hne h.symm
    · refine ⟨e.1, ?_, hig⟩
      have hl : (headers1.entries.foldl (firstLoopBody s3c)
          ⟨∅, ∅, false, headers2⟩).headers2.lookup e.1 = some e.2 :=
        List.mem_dlookup (AList.nodupKeys _) (by cases e; exact he)
      rw [h1 e.1] at hl
      by_cases hk : e.1 ∈ headers1.entries.keys
      · simp [hk] at hl
      · simp only [hk, if_false] at hl
        have hnone : headers1.lookup e.1 = none := by
          cases hv : headers1.lookup e.1 with
          | none => rfl
          | some v => exact absurd ((hkeys e.1).2 (by rw [hv]; rfl)) hk
        rw [hnone, hl]; simp
  · rintro ⟨k, hne, hig⟩
    cases hv1 : headers1.lookup k with
    | some v1 =>
      refine Or.inl (Or.inr ⟨⟨k, v1⟩, List.of_mem_dlookup hv1, ?_, hig⟩)
      rw [hv1] at hne
      exact fun h => hne h.symm
    | none =>
      rw [hv1] at hne
      cases hv2 : headers2.lookup k with
      | none => exact absurd hv2.symm hne
      | some v2 =>
        have hk : k ∉ headers1.entries.keys := by rw [hkeys, hv1]; simp
        have hl : (headers1.entries.foldl (firstLoopBody s3c)
            ⟨∅, ∅, false, headers2⟩).headers2.lookup k = some v2 := by
          rw [h1 k]; simp [hk, hv2]
        exact Or.inr ⟨⟨k, v2⟩, List.of_mem_dlookup hl, hig⟩

theorem lookup_eq_off_key (A B : Headers) (x : String)
    (h : ∀ k ∈ A.keys ++ B.keys, k ≠ x → A.lookup k = B.lookup k) :
    ∀ k, k ≠ x → A.lookup k = B.lookup k := by
  intro k hk
  by_cases hmem : k ∈ A.keys ++ B.keys
  · exact h k hmem hk
  · rw [List.mem_append, not_or] at hmem
    rw [AList.lookup_eq_none.2 (fun hm => hmem.1 (AList.mem_keys.1 hm)),
      AList.lookup_eq_none.2 (fun hm => hmem.2 (AList.mem_keys.1 hm))]

theorem asyncCompareKeys_ok (toLower : String → String) (key1 key2 : String)
    (hoo1 hoo2 : HeadObjectOutput) :
    asyncCompareKeys toLower s3c key1 key2 (.ok hoo1) (.ok hoo2) =
      if (compareHeaders s3c (headObjectOutputToHeaders toLower hoo1)
          (headObjectOutputToHeaders toLower hoo2)).diffsFound = true then
        some
          { Typ := "Mismatch"
            Objects :=
              [ { URL := "s3://" ++ s3c.bucket1 ++ "/" ++ key1,
                  LastModified := hoo1.LastModified },
                { URL := "s3://" ++ s3c.bucket2 ++ "/" ++ key2,
                  LastModified := hoo2.LastModified } ]
            CommonHeaders := (compareHeaders s3c (headObjectOutputToHeaders toLower hoo1)
              (headObjectOutputToHeaders toLower hoo2)).CommonHeaders
            DiffHeaders := (compareHeaders s3c (headObjectOutputToHeaders toLower hoo1)
              (headObjectOutputToHeaders toLower hoo2)).DiffHeaders }
      else none := by
  by_cases hd : (compareHeaders s3c (headObjectOutputToHeaders toLower hoo1)
    (headObjectOutputToHeaders toLower hoo2)).diffsFound = true
  · simp [asyncCompareKeys, hd]
  · simp [asyncCompareKeys, hd]

theorem asyncCompareKeys_none_iff (toLower : String → String) (key1 key2 : String)
    (hoo1 hoo2 : HeadObjectOutput) :
    asyncCompareKeys toLower s3c key1 key2 (.ok hoo1) (.ok hoo2) = none ↔
      ∀ k, (headObjectOutputToHeaders toLower hoo1).lookup k ≠
        (headObjectOutputToHeaders toLower hoo2).lookup k → s3c.isIgnored k = true := by
  rw [asyncCompareKeys_ok]
  have hd := compareHeaders_diffsFound s3c (headObjectOutputToHeaders toLower hoo1)
    (headObjectOutputToHeaders toLower hoo2)
  constructor
  · intro h k hne
    by_contra hig
    have : (compareHeaders s3c (headObjectOutputToHeaders toLower hoo1)
        (headObjectOutputToHeaders toLower hoo2)).diffsFound = true :=
      hd.2 ⟨k, hne, by simpa using hig⟩
    simp [this] at h
  · intro h
    have : ¬ (compareHeaders s3c (headObjectOutputToHeaders toLower hoo1)
        (headObjectOutputToHeaders toLower hoo2)).diffsFound = true := by
      rw [hd]
      rintro ⟨k, hne, hig⟩
      rw [h k hne] at hig
      exact absurd hig (by simp)
    simp [this]

end HeaderLemmas

/-- C3: after the two header loops of `asyncCompareKeys`, a header name is in `CommonHeaders`
or `DiffHeaders` exactly when it is in `headers1` or `headers2`, and never in both; it is in
`CommonHeaders` with value `v` exactly when both maps hold it with value `v`; and a name in
`DiffHeaders` maps to the pair `[value1, value2]`, the empty string standing for a side that
lacks the header. -/
theorem compareHeaders_partition (s3c : S3Comparer) (headers1 headers2 : Headers)
    (k : String) :
    ((k ∈ (compareHeaders s3c headers1 headers2).CommonHeaders ∨
        k ∈ (compareHeaders s3c headers1 headers2).DiffHeaders) ↔
      (k ∈ headers1 ∨ k ∈ headers2)) ∧
    ¬ (k ∈ (compareHeaders s3c headers1 headers2).CommonHeaders ∧
        k ∈ (compareHeaders s3c headers1 headers2).DiffHeaders) ∧
    (∀ v, (compareHeaders s3c headers1 headers2).CommonHeaders.lookup k = some v ↔
      (headers1.lookup k = some v ∧ headers2.lookup k = some v)) ∧
    ((compareHeaders s3c headers1 headers2).DiffHeaders.lookup k =
      if k ∈ (compareHeaders s3c headers1 headers2).CommonHeaders ∨
          ¬ (k ∈ headers1 ∨ k ∈ headers2) then none
      else some [(headers1.lookup k).getD "", (headers2.lookup k).getD ""]) := by
  have hc := compareHeaders_common s3c headers1 headers2 k
  have hd := compareHeaders_diff s3c headers1 headers2 k
  simp only [← AList.lookup_isSome]
  rw [hc, hd]
  cases hv1 : headers1.lookup k <;> cases hv2 : headers2.lookup k <;> simp
  · rename_i v1 v2
    by_cases hv : v1 = v2
    · subst hv; simp
    · simp [hv]
      intro h
      exact hv h.symm

/-- C6: the headers `Expires` and `Website-Redirect-Location`, which the usage text lists
as compared, are not read by `headObjectOutputToHeaders`: two results that differ in nothing
but these two fields yield no report, whatever the ignore set. -/
theorem expires_and_redirect_not_compared (toLower : String → String) (s3c : S3Comparer)
    (key1 key2 : String) (hoo : HeadObjectOutput) (e1 e2 w1 w2 : Option String) :
    asyncCompareKeys toLower s3c key1 key2
      (.ok { hoo with Expires := e1, WebsiteRedirectLocation := w1 })
      (.ok { hoo with Expires := e2, WebsiteRedirectLocation := w2 }) = none := by
  rw [asyncCompareKeys_none_iff]
  intro k hne
  exact absurd rfl hne

section WriterLemmas

variable (jsonMarshal : DiffReport → Except String String)

theorem intercalate_go_eq (acc : String) (rs : List String) :
    String.intercalate.go acc ",\n" rs = acc ++ jsonTail rs := by
  induction rs generalizing acc with
  | nil => simp [String.intercalate.go, jsonTail]
  | cons r rs ih =>
    rw [String.intercalate.go, ih, jsonTail]
    simp only [String.append_assoc]

theorem jsonFrame_cons (r : String) (rs : List String) :
    jsonFrame (r :: rs) = "[\n" ++ r ++ jsonTail rs ++ "\n]" := by
  simp only [jsonFrame, String.intercalate, intercalate_go_eq, String.append_assoc]

theorem reportStep (s3c : S3Comparer) (c : ReportCall)
    (hfmt : s3c.outputFormat = OutputFormatJSON) (hc : ∃ dr, c.toReport = .ok dr) :
    s3c.report jsonMarshal c = .ok
      (match c.serialised jsonMarshal with
        | none => s3c
        | some r =>
          { s3c with
            firstJSONWritten := 1
            output := s3c.output ++ ((if s3c.firstJSONWritten = 0 then "[\n" else ",\n") ++ r) }) := by
  have hne : ¬ s3c.outputFormat = OutputFormatText := by rw [hfmt]; decide
  obtain ⟨dr, hdr⟩ := hc
  cases c with
  | diff d =>
    simp only [ReportCall.toReport] at hdr
    simp only [S3Comparer.report, S3Comparer.printDiffJSON, ReportCall.serialised,
      ReportCall.toReport, S3Comparer.jsonSeparator, S3Comparer.write]
    cases jsonMarshal d with
    | error e => rfl
    | ok b => by_cases h0 : s3c.firstJSONWritten = 0 <;> simp [h0]
  | missing bucket pfx key position =>
    simp only [ReportCall.toReport] at hdr
    simp only [S3Comparer.report, S3Comparer.printMissing, hne, if_false, ReportCall.serialised,
      ReportCall.toReport, S3Comparer.jsonSeparator, S3Comparer.write, hdr]
    cases jsonMarshal dr with
    | error e => rfl
    | ok b => by_cases h0 : s3c.firstJSONWritten = 0 <;> simp [h0]

theorem reportAll_after_first (calls : List ReportCall) :
    ∀ (s3c : S3Comparer), s3c.outputFormat = OutputFormatJSON → s3c.firstJSONWritten ≠ 0 →
      (∀ c ∈ calls, ∃ dr, c.toReport = .ok dr) →
      ∃ s3c1, s3c.reportAll jsonMarshal calls = .ok s3c1 ∧
        s3c1.outputFormat = OutputFormatJSON ∧ s3c1.firstJSONWritten ≠ 0 ∧
        s3c1.output = s3c.output ++ jsonTail (calls.filterMap (ReportCall.serialised jsonMarshal)) := by
  induction calls with
  | nil => intro s3c hfmt hfirst _; exact ⟨s3c, rfl, hfmt, hfirst, by simp [jsonTail]⟩
  | cons c cs ih =>
    intro s3c hfmt hfirst hvalid
    have hstep := reportStep jsonMarshal s3c c hfmt (hvalid c (List.mem_cons_self _ _))
    have hrest : ∀ c1 ∈ cs, ∃ dr, c1.toReport = .ok dr :=
      fun c1 h => hvalid c1 (List.mem_cons_of_mem _ h)
    rw [S3Comparer.reportAll, hstep]
    cases hser : c.serialised jsonMarshal with
    | none =>
      obtain ⟨s3c1, h1, h2, h3, h4⟩ := ih s3c hfmt hfirst hrest
      exact ⟨s3c1, h1, h2, h3, by rw [h4, List.filterMap_cons, hser]⟩
    | some r =>
      obtain ⟨s3c1, h1, h2, h3, h4⟩ := ih
        { s3c with
          firstJSONWritten := 1
          output := s3c.output ++ ((if s3c.firstJSONWritten = 0 then "[\n" else ",\n") ++ r) }
        hfmt (by simp) hrest
      refine ⟨s3c1, h1, h2, h3, ?_⟩
      rw [h4, List.filterMap_cons, hser]
      simp only [hfirst, if_false, jsonTail, String.append_assoc]

theorem reportAll_from_start (calls : List ReportCall) :
    ∀ (s3c : S3Comparer), s3c.outputFormat = OutputFormatJSON → s3c.firstJSONWritten = 0 →
      (∀ c ∈ calls, ∃ dr, c.toReport = .ok dr) →
      ∃ s3c1, s3c.reportAll jsonMarshal calls = .ok s3c1 ∧
        s3c1.closeJSON.output =
          s3c.output ++ jsonFrame (calls.filterMap (ReportCall.serialised jsonMarshal)) := by
  induction calls with
  | nil =>
    intro s3c hfmt hfirst _
    exact ⟨s3c, rfl, by simp [S3Comparer.closeJSON, hfmt, hfirst, S3Comparer.write, jsonFrame]⟩
  | cons c cs ih =>
    intro s3c hfmt hfirst hvalid
    have hstep := reportStep jsonMarshal s3c c hfmt (hvalid c (List.mem_cons_self _ _))
    have hrest : ∀ c1 ∈ cs, ∃ dr, c1.toReport = .ok dr :=
      fun c1 h => hvalid c1 (List.mem_cons_of_mem _ h)
    rw [S3Comparer.reportAll, hstep]
    cases hser : c.serialised jsonMarshal with
    | none =>
      obtain ⟨s3c1, h1, h2⟩ := ih s3c hfmt hfirst hrest
      exact ⟨s3c1, h1, by rw [h2, List.filterMap_cons, hser]⟩
    | some r =>
      obtain ⟨s3c1, h1, h2, h3, h4⟩ := reportAll_after_first jsonMarshal cs
        { s3c with
          firstJSONWritten := 1
          output := s3c.output ++ ((if s3c.firstJSONWritten = 0 then "[\n" else ",\n") ++ r) }
        hfmt (by simp) hrest
      refine ⟨s3c1, h1, ?_⟩
      rw [List.filterMap_cons, hser, jsonFrame_cons]
      simp only [S3Comparer.closeJSON, h2, if_true, h3, if_false, S3Comparer.write, h4, hfirst,
        String.append_assoc]

end WriterLemmas

/-- C7: on a comparer in JSON format on which nothing was written yet, every finite sequence
of `printDiffJSON` and `printMissing` calls (in any order) runs through, and after the closing
step of `ComparePrefixes` the sink holds, after what it held before, `[]` and a newline when
no report was serialised, and otherwise `[`, a newline, the serialised reports separated by a
comma and a newline, then a newline and `]`. -/
theorem json_output_framed (jsonMarshal : DiffReport → Except String String)
    (s3c : S3Comparer) (calls : List ReportCall)
    (hfmt : s3c.outputFormat = OutputFormatJSON) (hfirst : s3c.firstJSONWritten = 0)
    (hpos : ∀ bucket pfx key position, ReportCall.missing bucket pfx key position ∈ calls →
      position = FirstObject ∨ position = SecondObject) :
    ∃ s3c1, s3c.reportAll jsonMarshal calls = .ok s3c1 ∧
      s3c1.closeJSON.output =
        s3c.output ++ jsonFrame (calls.filterMap (ReportCall.serialised jsonMarshal)) ∧
      jsonFrame [] = "[]\n" ∧
      ∀ r rs, jsonFrame (r :: rs) = "[\n" ++ String.intercalate ",\n" (r :: rs) ++ "\n]" := by
  have hvalid : ∀ c ∈ calls, ∃ dr, c.toReport = .ok dr := by
    intro c hc
    cases c with
    | diff dr => exact ⟨dr, rfl⟩
    | missing bucket pfx key position =>
      rcases hpos bucket pfx key position hc with h | h
      · subst h; exact ⟨_, rfl⟩
      · subst h; exact ⟨_, rfl⟩
  obtain ⟨s3c1, h1, h2⟩ := reportAll_from_start jsonMarshal calls s3c hfmt hfirst hvalid
  exact ⟨s3c1, h1, h2, rfl, fun _ _ => rfl⟩

/-- C7 at a run that writes one `Mismatch` and one `Missing` report. -/
theorem json_output_framed_witness :
    s3cJSON.outputFormat = OutputFormatJSON ∧ s3cJSON.firstJSONWritten = 0 ∧
    ∃ s3c1, s3cJSON.reportAll (fun dr => .ok ("\"" ++ dr.Typ ++ "\""))
        [.diff drUneven, .missing "b1" "p/" "k" FirstObject] = .ok s3c1 ∧
      s3c1.closeJSON.output =
        s3cJSON.output ++ jsonFrame (([.diff drUneven, .missing "b1" "p/" "k" FirstObject] :
          List ReportCall).filterMap
            (ReportCall.serialised (fun dr => .ok ("\"" ++ dr.Typ ++ "\"")))) ∧
      jsonFrame [] = "[]\n" ∧
      ∀ r rs, jsonFrame (r :: rs) = "[\n" ++ String.intercalate ",\n" (r :: rs) ++ "\n]" :=
  ⟨rfl, rfl,
    json_output_framed (fun dr => .ok ("\"" ++ dr.Typ ++ "\"")) s3cJSON
      [.diff drUneven, .missing "b1" "p/" "k" FirstObject] rfl rfl
      (by
        intro bucket pfx key position h
        simp at h
        exact Or.inl h.2.2.2)⟩

/-- C2: the sub-prefix loop as written pairs `a/` of side 1 with `b/` of side 2 for
recursion and reports neither as missing, although the two names differ. -/
theorem mergeSubprefixes_pairs_unequal_names :
    mergeSubprefixes "b1" "b2" "p/" "q/" ["a/"] ["b/"] = .ok ⟨[["p/a/", "q/b/"]], []⟩ := by
  decide

/-- C8: for two URLs of lengths 9 and 10 the text of `printDiffText` carries both URLs
without any padding, so the two time stamps start at different columns. -/
theorem diffText_urls_not_padded :
    diffText drUneven = .ok
      ("--- s3://b1/x t1\n+++ s3://b22/x t2\n@@ -1,2 +1,3 @@\n content-length: 3\n" ++
        "-content-type: text/plain\n+content-type: text/html\n+etag: e\n") := by
  decide

section ListerLemmas

variable (pfx : String)

theorem prefix_append_sliceFrom (entry : String) (h : HasPrefix entry pfx = true) :
    pfx ++ sliceFrom entry pfx = entry := by
  have hp : pfx.toList <+: entry.toList := List.isPrefixOf_iff_prefix.1 h
  apply String.ext
  simp only [String.data_append, sliceFrom]
  exact List.prefix_iff_eq_append.1 hp

theorem appendSuffixes_ok (entries : List String) :
    ∀ (acc out : List String), appendSuffixes pfx acc entries = .ok out →
      (∀ s ∈ out, s ∈ acc ∨ pfx ++ s ∈ entries) ∧
      (∀ e ∈ entries, HasPrefix e pfx = true) ∧ (∀ s ∈ acc, s ∈ out) := by
  induction entries with
  | nil =>
    intro acc out h
    simp only [appendSuffixes, Except.ok.injEq] at h
    subst h
    exact ⟨fun s hs => Or.inl hs, by simp, fun s hs => hs⟩
  | cons e es ih =>
    intro acc out h
    by_cases hp : HasPrefix e pfx = true
    · simp only [appendSuffixes, hp, Bool.not_true, Bool.false_eq_true, if_false] at h
      obtain ⟨h1, h2, h3⟩ := ih _ _ h
      refine ⟨?_, ?_, fun s hs => h3 s (List.mem_append_left _ hs)⟩
      · intro s hs
        rcases h1 s hs with h | h
        · rcases List.mem_append.1 h with h | h
          · exact Or.inl h
          · rw [List.mem_singleton] at h
            subst h
            rw [prefix_append_sliceFrom pfx e hp]
            exact Or.inr (List.mem_cons_self _ _)
        · exact Or.inr (List.mem_cons_of_mem _ h)
      · intro e1 he1
        rcases List.mem_cons.1 he1 with h | h
        · rw [h]; exact hp
        · exact h2 e1 h
    · simp [appendSuffixes, hp] at h

theorem mem_sortStrings (l : List String) (s : String) : s ∈ sortStrings l ↔ s ∈ l :=
  (List.perm_insertionSort _ l).mem_iff

theorem listLoop_ok (fetches : List PageFetch) :
    ∀ (result r : asyncListPrefixResult), listLoop pfx result fetches = .ok (some r) →
      r.Err = none →
      (∀ s ∈ r.Subprefixes, s ∈ result.Subprefixes ∨
        ∃ loo, PageFetch.page loo ∈ fetches ∧ pfx ++ s ∈ loo.CommonPrefixes) ∧
      (∀ s ∈ r.Keys, s ∈ result.Keys ∨
        ∃ loo, PageFetch.page loo ∈ fetches ∧ pfx ++ s ∈ loo.Contents) ∧
      (∀ loo, PageFetch.page loo ∈ fetches →
        ∀ e ∈ loo.CommonPrefixes ++ loo.Contents, HasPrefix e pfx = true) := by
  induction fetches with
  | nil =>
    intro result r h _
    simp only [listLoop, Except.ok.injEq, Option.some.injEq] at h
    subst h
    refine ⟨fun s hs => Or.inl ((mem_sortStrings _ s).1 hs),
      fun s hs => Or.inl ((mem_sortStrings _ s).1 hs), by simp⟩
  | cons f fs ih =>
    intro result r h herr
    cases f with
    | cancelled => simp [listLoop] at h
    | acquireFailed err =>
      simp only [listLoop, Except.ok.injEq, Option.some.injEq] at h
      subst h; simp at herr
    | nextPageFailed err =>
      simp only [listLoop, Except.ok.injEq, Option.some.injEq] at h
      subst h; simp at herr
    | page loo =>
      simp only [listLoop] at h
      cases hsub : appendSuffixes pfx result.Subprefixes loo.CommonPrefixes with
      | error e => simp [hsub] at h
      | ok subprefixes =>
        cases hkeys : appendSuffixes pfx result.Keys loo.Contents with
        | error e => simp [hsub, hkeys] at h
        | ok keys =>
          simp only [hsub, hkeys] at h
          obtain ⟨a1, a2, _⟩ := appendSuffixes_ok pfx _ _ _ hsub
          obtain ⟨b1, b2, _⟩ := appendSuffixes_ok pfx _ _ _ hkeys
          obtain ⟨c1, c2, c3⟩ := ih _ r h herr
          refine ⟨?_, ?_, ?_⟩
          · intro s hs
            rcases c1 s hs with h1 | ⟨loo1, hl, hm⟩
            · rcases a1 s h1 with h2 | h2
              · exact Or.inl h2
              · exact Or.inr ⟨loo, List.mem_cons_self _ _, h2⟩
            · exact Or.inr ⟨loo1, List.mem_cons_of_mem _ hl, hm⟩
          · intro s hs
            rcases c2 s hs with h1 | ⟨loo1, hl, hm⟩
            · rcases b1 s h1 with h2 | h2
              · exact Or.inl h2
              · exact Or.inr ⟨loo, List.mem_cons_self _ _, h2⟩
            · exact Or.inr ⟨loo1, List.mem_cons_of_mem _ hl, hm⟩
          · intro loo1 hl e he
            rcases List.mem_cons.1 hl with h1 | h1
            · cases h1
              rcases List.mem_append.1 he with h2 | h2
              · exact a2 e h2
              · exact b2 e h2
            · exact c3 loo1 h1 e he

end ListerLemmas

/-- C10, as the source has it: the lister returns the empty key suffix for an object whose
key is the queried prefix itself; no invariant failure is raised. -/
theorem asyncListPrefix_returns_empty_suffix :
    asyncListPrefix "dir/" [.page ⟨["dir/sub/"], ["dir/", "dir/a"]⟩] =
        .ok (some ⟨["sub/"], ["", "a"], none⟩) ∧
      "" ∈ (⟨["sub/"], ["", "a"], none⟩ : asyncListPrefixResult).Keys := by
  decide

/-- C10, amended: in a successful result of `asyncListPrefix` every sub-prefix suffix and
every key suffix is what follows the queried prefix in an entry of some listed page (prefix
followed by suffix is that entry), and every entry of every listed page begins with the
queried prefix, an entry that does not being an invariant failure instead of a result. -/
theorem asyncListPrefix_suffixes (pfx : String) (fetches : List PageFetch)
    (r : asyncListPrefixResult) (hres : asyncListPrefix pfx fetches = .ok (some r))
    (herr : r.Err = none) :
    (∀ s ∈ r.Subprefixes, ∃ loo, PageFetch.page loo ∈ fetches ∧ pfx ++ s ∈ loo.CommonPrefixes) ∧
    (∀ s ∈ r.Keys, ∃ loo, PageFetch.page loo ∈ fetches ∧ pfx ++ s ∈ loo.Contents) ∧
    (∀ loo, PageFetch.page loo ∈ fetches →
      ∀ e ∈ loo.CommonPrefixes ++ loo.Contents, HasPrefix e pfx = true) := by
  obtain ⟨h1, h2, h3⟩ := listLoop_ok pfx fetches ⟨[], [], none⟩ r hres herr
  refine ⟨fun s hs => ?_, fun s hs => ?_, h3⟩
  · rcases h1 s hs with h | h
    · simp at h
    · exact h
  · rcases h2 s hs with h | h
    · simp at h
    · exact h

/-- C10, amended, at a listing of `dir/` that holds the placeholder object `dir/`. -/
theorem asyncListPrefix_suffixes_witness :
    asyncListPrefix "dir/" [.page ⟨["dir/sub/"], ["dir/", "dir/a"]⟩] =
        .ok (some ⟨["sub/"], ["", "a"], none⟩) ∧
    (∀ s ∈ (⟨["sub/"], ["", "a"], none⟩ : asyncListPrefixResult).Subprefixes,
      ∃ loo, PageFetch.page loo ∈ [PageFetch.page ⟨["dir/sub/"], ["dir/", "dir/a"]⟩] ∧
        "dir/" ++ s ∈ loo.CommonPrefixes) ∧
    (∀ s ∈ (⟨["sub/"], ["", "a"], none⟩ : asyncListPrefixResult).Keys,
      ∃ loo, PageFetch.page loo ∈ [PageFetch.page ⟨["dir/sub/"], ["dir/", "dir/a"]⟩] ∧
        "dir/" ++ s ∈ loo.Contents) ∧
    (∀ loo, PageFetch.page loo ∈ [PageFetch.page ⟨["dir/sub/"], ["dir/", "dir/a"]⟩] →
      ∀ e ∈ loo.CommonPrefixes ++ loo.Contents, HasPrefix e "dir/" = true) :=
  ⟨by decide,
    asyncListPrefix_suffixes "dir/" [.page ⟨["dir/sub/"], ["dir/", "dir/a"]⟩]
      ⟨["sub/"], ["", "a"], none⟩ (by decide) rfl⟩

section TextLemmas

theorem string_join_cons (a : String) (l : List String) :
    String.join (a :: l) = a ++ String.join l := by
  apply String.ext
  simp [String.data_join]

theorem textBodyStep_ok (dr : DiffReport) (st : TextBody) (key : String)
    (hkey : key ∈ dr.CommonHeaders ∨ ∃ vs, dr.DiffHeaders.lookup key = some vs ∧ vs.length = 2) :
    textBodyStep dr st key = .ok
      ⟨st.body ++ bodyLines dr key, st.path1Lines + count1 dr key,
        st.path2Lines + count2 dr key⟩ := by
  unfold textBodyStep bodyLines count1 count2
  cases hc : dr.CommonHeaders.lookup key with
  | some value => simp [String.append_assoc]
  | none =>
    have hnot : key ∉ dr.CommonHeaders := AList.lookup_eq_none.1 hc
    rcases hkey with h | ⟨vs, hvs, hlen⟩
    · exact absurd h hnot
    · match vs, hlen with
      | [v0, v1], _ =>
        simp only [hvs, Option.getD_some]
        by_cases h0 : v0 = "" <;> by_cases h1 : v1 = "" <;>
          simp [h0, h1, String.append_assoc, -String.reduceAppend]

theorem textBodyLoop_ok (dr : DiffReport) (keys : List String) :
    ∀ (st : TextBody),
      (∀ key ∈ keys, key ∈ dr.CommonHeaders ∨
        ∃ vs, dr.DiffHeaders.lookup key = some vs ∧ vs.length = 2) →
      textBodyLoop dr st keys = .ok
        ⟨st.body ++ String.join (keys.map (bodyLines dr)),
          st.path1Lines + (keys.map (count1 dr)).sum,
          st.path2Lines + (keys.map (count2 dr)).sum⟩ := by
  induction keys with
  | nil => intro st _; simp [textBodyLoop, String.join]
  | cons key keys ih =>
    intro st hkeys
    rw [textBodyLoop, textBodyStep_ok dr st key (hkeys key (List.mem_cons_self _ _))]
    simp only
    rw [ih _ (fun k hk => hkeys k (List.mem_cons_of_mem _ hk))]
    simp only [List.map_cons, List.sum_cons, string_join_cons, String.append_assoc,
      Nat.add_assoc]

theorem sum_map_ite_eq_length_filter {α : Type} (p : α → Bool) (l : List α) :
    (l.map (fun x => if p x = true then 1 else 0)).sum = (l.filter p).length := by
  induction l with
  | nil => rfl
  | cons a l ih =>
    cases hp : p a <;> simp [List.filter_cons, hp, ih, Nat.add_comm]

theorem sum_map_congr {α : Type} (f g : α → Nat) (l : List α) (h : ∀ x ∈ l, f x = g x) :
    (l.map f).sum = (l.map g).sum := by
  rw [List.map_congr_left h]

theorem sum_count_eq (dr : DiffReport) (n : Nat) (count : DiffReport → String → Nat)
    (hcommon : ∀ k v, dr.CommonHeaders.lookup k = some v → count dr k = 1)
    (hdiff : ∀ k, dr.CommonHeaders.lookup k = none →
      count dr k = if ((dr.DiffHeaders.lookup k).getD []).getD n "" ≠ "" then 1 else 0)
    (hdisj : ∀ k, ¬ (k ∈ dr.CommonHeaders ∧ k ∈ dr.DiffHeaders)) :
    ((sortStrings (dr.CommonHeaders.keys ++ dr.DiffHeaders.keys)).map (count dr)).sum =
      dr.CommonHeaders.keys.length +
        (dr.DiffHeaders.entries.filter (fun e => decide (e.2.getD n "" ≠ ""))).length := by
  have hperm : List.Perm
      ((sortStrings (dr.CommonHeaders.keys ++ dr.DiffHeaders.keys)).map (count dr))
      ((dr.CommonHeaders.keys ++ dr.DiffHeaders.keys).map (count dr)) :=
    (List.perm_insertionSort _ _).map _
  rw [hperm.sum_eq, List.map_append, List.sum_append]
  congr 1
  · rw [sum_map_congr (count dr) (fun _ => 1)]
    · simp
    · intro k hk
      have hmem : k ∈ dr.CommonHeaders := AList.mem_keys.2 hk
      cases hl : dr.CommonHeaders.lookup k with
      | none => exact absurd hmem (AList.lookup_eq_none.1 hl)
      | some v => exact hcommon k v hl
  · rw [← sum_map_ite_eq_length_filter]
    show ((dr.DiffHeaders.entries.map Sigma.fst).map (count dr)).sum = _
    rw [List.map_map]
    apply sum_map_congr
    intro e he
    have hmem : e.1 ∈ dr.DiffHeaders := AList.mem_keys.2 (List.mem_keys_of_mem he)
    have hnone : dr.CommonHeaders.lookup e.1 = none :=
      AList.lookup_eq_none.2 (fun h => hdisj e.1 ⟨h, hmem⟩)
    have hl : dr.DiffHeaders.lookup e.1 = some e.2 :=
      List.mem_dlookup dr.DiffHeaders.nodupKeys (by cases e; exact he)
    simp only [Function.comp_apply, hdiff e.1 hnone, hl, Option.getD_some, decide_eq_true_eq]

theorem keysSorted_strict (dr : DiffReport)
    (hdisj : ∀ k, ¬ (k ∈ dr.CommonHeaders ∧ k ∈ dr.DiffHeaders)) :
    (sortStrings (dr.CommonHeaders.keys ++ dr.DiffHeaders.keys)).Sorted (fun a b => a < b) := by
  have hnodup : (dr.CommonHeaders.keys ++ dr.DiffHeaders.keys).Nodup := by
    refine List.Nodup.append dr.CommonHeaders.keys_nodup dr.DiffHeaders.keys_nodup ?_
    intro k h1 h2
    exact hdisj k ⟨AList.mem_keys.2 h1, AList.mem_keys.2 h2⟩
  have hsorted : (sortStrings (dr.CommonHeaders.keys ++ dr.DiffHeaders.keys)).Sorted
      (fun a b => a ≤ b) := List.sorted_insertionSort _ _
  exact hsorted.lt_of_le ((List.perm_insertionSort _ _).nodup_iff.2 hnodup)

theorem disjoint_of_keys (dr : DiffReport)
    (h : ∀ k ∈ dr.CommonHeaders.keys, k ∉ dr.DiffHeaders.keys) :
    ∀ k, ¬ (k ∈ dr.CommonHeaders ∧ k ∈ dr.DiffHeaders) :=
  fun k hk => h k (AList.mem_keys.1 hk.1) (AList.mem_keys.1 hk.2)

theorem pairs_of_entries (dr : DiffReport)
    (h : ∀ e ∈ dr.DiffHeaders.entries, e.2.length = 2) :
    ∀ k vs, dr.DiffHeaders.lookup k = some vs → vs.length = 2 :=
  fun k vs hvs => h ⟨k, vs⟩ (List.of_mem_dlookup hvs)

end TextLemmas

/-- C9: for a report with two objects, disjoint `CommonHeaders` and `DiffHeaders` and
two-element values in `DiffHeaders`, `printDiffText` builds its text without panicking; after
the two header lines comes the hunk marker `@@ -1,n1 +1,n2 @@` with `n1` the number of common
headers plus the `DiffHeaders` entries whose side-1 value is not empty and `n2` the same for
side 2, and then the body lines of the header keys in strictly ascending order of key. -/
theorem diffText_hunk_and_body (dr : DiffReport) (o0 o1 : DiffObject)
    (hobj0 : dr.Objects[0]? = some o0) (hobj1 : dr.Objects[1]? = some o1)
    (hdisj : ∀ k, ¬ (k ∈ dr.CommonHeaders ∧ k ∈ dr.DiffHeaders))
    (hpair : ∀ k vs, dr.DiffHeaders.lookup k = some vs → vs.length = 2) :
    ∃ keys : List String,
      keys.Sorted (fun a b => a < b) ∧
      (∀ k, k ∈ keys ↔ (k ∈ dr.CommonHeaders ∨ k ∈ dr.DiffHeaders)) ∧
      diffText dr = .ok
        ("--- " ++ fmtMinusPrecS (maxint (len o0.URL) (len o1.URL)) o0.URL ++ " " ++
            o0.LastModified ++ "\n" ++
          "+++ " ++ fmtMinusPrecS (maxint (len o0.URL) (len o1.URL)) o1.URL ++ " " ++
            o1.LastModified ++ "\n" ++
          "@@ -1," ++ toString (side1Lines dr) ++ " +1," ++ toString (side2Lines dr) ++
            " @@\n" ++
          String.join (keys.map (bodyLines dr))) := by
  refine ⟨sortStrings (dr.CommonHeaders.keys ++ dr.DiffHeaders.keys),
    keysSorted_strict dr hdisj, ?_, ?_⟩
  · intro k
    rw [mem_sortStrings, List.mem_append, AList.mem_keys, AList.mem_keys]
  · have hkeys : ∀ key ∈ sortStrings (dr.CommonHeaders.keys ++ dr.DiffHeaders.keys),
        key ∈ dr.CommonHeaders ∨ ∃ vs, dr.DiffHeaders.lookup key = some vs ∧ vs.length = 2 := by
      intro key hkey
      rw [mem_sortStrings, List.mem_append] at hkey
      rcases hkey with h | h
      · exact Or.inl (AList.mem_keys.2 h)
      · have hsome := AList.lookup_isSome.2 (AList.mem_keys.2 h)
        obtain ⟨vs, hvs⟩ := Option.isSome_iff_exists.1 hsome
        exact Or.inr ⟨vs, hvs, hpair key vs hvs⟩
    have h1 := sum_count_eq dr 0 count1 (fun k v h => by simp [count1, h])
      (fun k h => by simp [count1, h]) hdisj
    have h2 := sum_count_eq dr 1 count2 (fun k v h => by simp [count2, h])
      (fun k h => by simp [count2, h]) hdisj
    unfold diffText
    simp only [hobj0, hobj1]
    rw [textBodyLoop_ok dr _ _ hkeys]
    simp only [h1, h2, Nat.zero_add, side1Lines, side2Lines, String.append_assoc]
    rfl

/-- C9 at a report with one common header and two differing ones. -/
theorem diffText_hunk_and_body_witness :
    drUneven.Objects[0]? = some ⟨"s3://b1/x", "t1"⟩ ∧
    drUneven.Objects[1]? = some ⟨"s3://b22/x", "t2"⟩ ∧
    ∃ keys : List String,
      keys.Sorted (fun a b => a < b) ∧
      (∀ k, k ∈ keys ↔ (k ∈ drUneven.CommonHeaders ∨ k ∈ drUneven.DiffHeaders)) ∧
      diffText drUneven = .ok
        ("--- " ++ fmtMinusPrecS (maxint (len "s3://b1/x") (len "s3://b22/x")) "s3://b1/x" ++
            " " ++ "t1" ++ "\n" ++
          "+++ " ++ fmtMinusPrecS (maxint (len "s3://b1/x") (len "s3://b22/x")) "s3://b22/x" ++
            " " ++ "t2" ++ "\n" ++
          "@@ -1," ++ toString (side1Lines drUneven) ++ " +1," ++
            toString (side2Lines drUneven) ++ " @@\n" ++
          String.join (keys.map (bodyLines drUneven))) :=
  ⟨rfl, rfl,
    diffText_hunk_and_body drUneven ⟨"s3://b1/x", "t1"⟩ ⟨"s3://b22/x", "t2"⟩ rfl rfl
      (disjoint_of_keys drUneven (by decide)) (pairs_of_entries drUneven (by decide))⟩

section SubprefixLemmas

variable (bucket1 bucket2 prefix1 prefix2 : String) (subprefixes1 subprefixes2 : List String)

theorem subprefixLoop_succ (fuel : Nat) (st : MergeState) :
    subprefixLoop bucket1 bucket2 prefix1 prefix2 subprefixes1 subprefixes2 (fuel + 1) st =
      match subprefixStep bucket1 bucket2 prefix1 prefix2 subprefixes1 subprefixes2 st with
      | .ok (some st1) =>
        subprefixLoop bucket1 bucket2 prefix1 prefix2 subprefixes1 subprefixes2 fuel st1
      | .ok none => .ok st
      | .error e => .error e := by
  rw [subprefixLoop, subprefixStep]
  by_cases hg : st.i < subprefixes1.length ∧ st.j < subprefixes2.length
  · simp only [hg, and_self, if_true]
    cases h1 : subprefixes1[st.i]? <;> cases h2 : subprefixes1[st.j]? <;>
      cases h3 : subprefixes2[st.j]? <;> simp only []
    rename_i s1i s1j s2j
    by_cases he : s1i = s1j
    · simp only [he, if_true]
    · simp only [he, if_false]
      by_cases hl : s1i < s2j
      · simp only [hl, if_true]
      · simp only [hl, if_false]
        cases h4 : subprefixes2[st.i]? <;> simp only []
  · simp only [hg, if_false]

theorem subprefixLoop_exit (fuel : Nat) (st : MergeState)
    (hg : ¬ (st.i < subprefixes1.length ∧ st.j < subprefixes2.length)) :
    subprefixLoop bucket1 bucket2 prefix1 prefix2 subprefixes1 subprefixes2 fuel st = .ok st := by
  unfold subprefixLoop
  simp only [hg, if_false]

theorem subprefixStep_diag (n : Nat) (acc : List (List String)) (miss : List MissingCall)
    (h1 : n < subprefixes1.length) (h2 : n < subprefixes2.length) :
    subprefixStep bucket1 bucket2 prefix1 prefix2 subprefixes1 subprefixes2 ⟨n, n, acc, miss⟩ =
      .ok (some ⟨n + 1, n + 1,
        acc ++ [[prefix1 ++ subprefixes1[n], prefix2 ++ subprefixes2[n]]], miss⟩) := by
  rw [subprefixStep]
  simp [h1, h2]

theorem zipWith_take_succ {α β γ : Type} (f : α → β → γ) (l1 : List α) (l2 : List β) (n : Nat)
    (h1 : n < l1.length) (h2 : n < l2.length) :
    List.zipWith f (l1.take (n + 1)) (l2.take (n + 1)) =
      List.zipWith f (l1.take n) (l2.take n) ++ [f l1[n] l2[n]] := by
  rw [List.take_succ, List.take_succ, List.getElem?_eq_getElem h1, List.getElem?_eq_getElem h2,
    List.zipWith_append]
  · rfl
  · rw [List.length_take, List.length_take]; omega

theorem subprefixIter_diag (n : Nat) :
    subprefixIter bucket1 bucket2 prefix1 prefix2 subprefixes1 subprefixes2 n ⟨0, 0, [], []⟩ =
      .ok (if n ≤ min subprefixes1.length subprefixes2.length then
        some ⟨n, n,
          List.zipWith (fun s1 s2 => [prefix1 ++ s1, prefix2 ++ s2])
            (subprefixes1.take n) (subprefixes2.take n), []⟩
        else none) := by
  induction n with
  | zero => simp [subprefixIter]
  | succ n ih =>
    rw [subprefixIter, ih]
    by_cases hn : n + 1 ≤ min subprefixes1.length subprefixes2.length
    · have hn0 : n ≤ min subprefixes1.length subprefixes2.length := by omega
      have h1 : n < subprefixes1.length := by omega
      have h2 : n < subprefixes2.length := by omega
      simp only [hn0, hn, if_true]
      rw [subprefixStep_diag _ _ _ _ _ _ n _ _ h1 h2, zipWith_take_succ _ _ _ n h1 h2]
    · by_cases hn0 : n ≤ min subprefixes1.length subprefixes2.length
      · simp only [hn0, hn, if_true, if_false]
        rw [subprefixStep]
        have hg : ¬ (n < subprefixes1.length ∧ n < subprefixes2.length) := by omega
        simp only [hg, if_false]
      · simp only [hn0, hn, if_false]

theorem subprefixLoop_diag (fuel : Nat) :
    ∀ (n : Nat) (acc : List (List String)) (miss : List MissingCall),
      min subprefixes1.length subprefixes2.length - n ≤ fuel →
      subprefixLoop bucket1 bucket2 prefix1 prefix2 subprefixes1 subprefixes2 fuel
          ⟨n, n, acc, miss⟩ =
        .ok ⟨max n (min subprefixes1.length subprefixes2.length),
          max n (min subprefixes1.length subprefixes2.length),
          acc ++ List.zipWith (fun s1 s2 => [prefix1 ++ s1, prefix2 ++ s2])
            (subprefixes1.drop n) (subprefixes2.drop n), miss⟩ := by
  induction fuel with
  | zero =>
    intro n acc miss hfuel
    have hg : ¬ (n < subprefixes1.length ∧ n < subprefixes2.length) := by omega
    rw [subprefixLoop_exit _ _ _ _ _ _ _ _ hg]
    have hz : List.zipWith (fun s1 s2 => [prefix1 ++ s1, prefix2 ++ s2])
        (subprefixes1.drop n) (subprefixes2.drop n) = [] := by
      by_cases h1 : n < subprefixes1.length
      · rw [List.drop_eq_nil_of_le (show subprefixes2.length ≤ n by omega)]; simp
      · rw [List.drop_eq_nil_of_le (show subprefixes1.length ≤ n by omega)]; simp
    rw [hz, List.append_nil, Nat.max_eq_left (by omega)]
  | succ fuel ih =>
    intro n acc miss hfuel
    by_cases hg : n < subprefixes1.length ∧ n < subprefixes2.length
    · obtain ⟨h1, h2⟩ := hg
      rw [subprefixLoop_succ, subprefixStep_diag _ _ _ _ _ _ n _ _ h1 h2]
      simp only
      rw [ih (n + 1) _ miss (by omega), List.drop_eq_getElem_cons h1,
        List.drop_eq_getElem_cons h2, List.zipWith_cons_cons, List.append_assoc,
        List.singleton_append, Nat.max_eq_right (by omega), Nat.max_eq_right (by omega)]
    · rw [subprefixLoop_exit _ _ _ _ _ _ _ _ hg]
      have hz : List.zipWith (fun s1 s2 => [prefix1 ++ s1, prefix2 ++ s2])
          (subprefixes1.drop n) (subprefixes2.drop n) = [] := by
        by_cases h1 : n < subprefixes1.length
        · rw [List.drop_eq_nil_of_le (show subprefixes2.length ≤ n by omega)]; simp
        · rw [List.drop_eq_nil_of_le (show subprefixes1.length ≤ n by omega)]; simp
      rw [hz, List.append_nil, Nat.max_eq_left (by omega)]

end SubprefixLemmas

/-- C13: for all sub-prefix lists, the loop variables at the start of iteration `n` of the
sub-prefix loop are `i = j = n` (with the first `n` entries paired index by index and nothing
reported) as long as `n` is at most the shorter length, and the loop has ended after that;
the loop of the source runs this step; and the whole sub-prefix merge returns without an
index panic, with the index-wise pairs and the entries beyond the shorter length reported
missing. -/
theorem subprefix_cursors_equal (bucket1 bucket2 prefix1 prefix2 : String)
    (subprefixes1 subprefixes2 : List String) :
    (∀ n, subprefixIter bucket1 bucket2 prefix1 prefix2 subprefixes1 subprefixes2 n
        ⟨0, 0, [], []⟩ =
      .ok (if n ≤ min subprefixes1.length subprefixes2.length then
        some ⟨n, n,
          List.zipWith (fun s1 s2 => [prefix1 ++ s1, prefix2 ++ s2])
            (subprefixes1.take n) (subprefixes2.take n), []⟩
        else none)) ∧
    (∀ fuel st,
      subprefixLoop bucket1 bucket2 prefix1 prefix2 subprefixes1 subprefixes2 (fuel + 1) st =
        match subprefixStep bucket1 bucket2 prefix1 prefix2 subprefixes1 subprefixes2 st with
        | .ok (some st1) =>
          subprefixLoop bucket1 bucket2 prefix1 prefix2 subprefixes1 subprefixes2 fuel st1
        | .ok none => .ok st
        | .error e => .error e) ∧
    mergeSubprefixes bucket1 bucket2 prefix1 prefix2 subprefixes1 subprefixes2 =
      .ok ⟨List.zipWith (fun s1 s2 => [prefix1 ++ s1, prefix2 ++ s2]) subprefixes1 subprefixes2,
        (subprefixes1.drop (min subprefixes1.length subprefixes2.length)).map
            (fun s => (⟨bucket1, prefix1, s, FirstObject⟩ : MissingCall)) ++
          (subprefixes2.drop (min subprefixes1.length subprefixes2.length)).map
            (fun s => (⟨bucket2, prefix2, s, SecondObject⟩ : MissingCall))⟩ := by
  refine ⟨subprefixIter_diag _ _ _ _ _ _, subprefixLoop_succ _ _ _ _ _ _, ?_⟩
  unfold mergeSubprefixes
  rw [subprefixLoop_diag _ _ _ _ _ _ _ 0 [] [] (by omega)]
  simp [drainLoops]

section ListerResultLemmas

variable (pfx : String)

theorem appendSuffixes_all (entries : List String) :
    ∀ (acc : List String), (∀ e ∈ entries, HasPrefix e pfx = true) →
      appendSuffixes pfx acc entries = .ok (acc ++ entries.map (fun e => sliceFrom e pfx)) := by
  induction entries with
  | nil => intro acc _; simp [appendSuffixes]
  | cons e es ih =>
    intro acc h
    have he : HasPrefix e pfx = true := h e (List.mem_cons_self _ _)
    rw [appendSuffixes]
    simp only [he, Bool.not_true, Bool.false_eq_true, if_false]
    rw [ih _ (fun e1 h1 => h e1 (List.mem_cons_of_mem _ h1))]
    simp

theorem listLoop_pages (pages : List ListPage) :
    ∀ (result : asyncListPrefixResult),
      (∀ loo ∈ pages, ∀ e ∈ loo.CommonPrefixes ++ loo.Contents, HasPrefix e pfx = true) →
      listLoop pfx result (pages.map PageFetch.page) =
        .ok (some
          ⟨sortStrings (result.Subprefixes ++
              ((pages.map ListPage.CommonPrefixes).flatten.map (fun e => sliceFrom e pfx))),
            sortStrings (result.Keys ++
              ((pages.map ListPage.Contents).flatten.map (fun e => sliceFrom e pfx))),
            result.Err⟩) := by
  induction pages with
  | nil => intro result _; simp [listLoop]
  | cons loo rest ih =>
    intro result h
    have hcp : ∀ e ∈ loo.CommonPrefixes, HasPrefix e pfx = true :=
      fun e he => h loo (List.mem_cons_self _ _) e (List.mem_append_left _ he)
    have hct : ∀ e ∈ loo.Contents, HasPrefix e pfx = true :=
      fun e he => h loo (List.mem_cons_self _ _) e (List.mem_append_right _ he)
    rw [List.map_cons, listLoop, appendSuffixes_all pfx _ _ hcp, appendSuffixes_all pfx _ _ hct]
    simp only
    rw [ih _ (fun l hl => h l (List.mem_cons_of_mem _ hl))]
    simp

theorem sliceFrom_injOn (e1 e2 : String) (h1 : HasPrefix e1 pfx = true)
    (h2 : HasPrefix e2 pfx = true) (h : sliceFrom e1 pfx = sliceFrom e2 pfx) : e1 = e2 := by
  rw [← prefix_append_sliceFrom pfx e1 h1, ← prefix_append_sliceFrom pfx e2 h2, h]

theorem reconstruct_map (entries : List String) (h : ∀ e ∈ entries, HasPrefix e pfx = true) :
    (entries.map (fun e => sliceFrom e pfx)).map (fun s => pfx ++ s) = entries := by
  rw [List.map_map]
  conv_rhs => rw [← List.map_id entries]
  apply List.map_congr_left
  intro e he
  exact prefix_append_sliceFrom pfx e (h e he)

end ListerResultLemmas

/-- C11: when every page is fetched and every entry begins with the queried prefix,
`asyncListPrefix` sends a result without error whose `Subprefixes` (resp. `Keys`) is
ascending, is a permutation of the common prefixes (resp. object keys) of all pages with the
prefix cut off, and gives back a permutation of the listed entries when the prefix is put in
front again; the lists are strictly ascending when no entry is listed twice. -/
theorem asyncListPrefix_sorted_permutation (pfx : String) (pages : List ListPage)
    (hpfx : ∀ loo ∈ pages, ∀ e ∈ loo.CommonPrefixes ++ loo.Contents, HasPrefix e pfx = true) :
    ∃ r : asyncListPrefixResult,
      asyncListPrefix pfx (pages.map PageFetch.page) = .ok (some r) ∧ r.Err = none ∧
      r.Subprefixes.Sorted (fun a b => a ≤ b) ∧
      List.Perm r.Subprefixes
        ((pages.map ListPage.CommonPrefixes).flatten.map (fun e => sliceFrom e pfx)) ∧
      List.Perm (r.Subprefixes.map (fun s => pfx ++ s))
        (pages.map ListPage.CommonPrefixes).flatten ∧
      r.Keys.Sorted (fun a b => a ≤ b) ∧
      List.Perm r.Keys
        ((pages.map ListPage.Contents).flatten.map (fun e => sliceFrom e pfx)) ∧
      List.Perm (r.Keys.map (fun s => pfx ++ s)) (pages.map ListPage.Contents).flatten ∧
      ((pages.map ListPage.CommonPrefixes).flatten.Nodup →
        r.Subprefixes.Sorted (fun a b => a < b)) ∧
      ((pages.map ListPage.Contents).flatten.Nodup → r.Keys.Sorted (fun a b => a < b)) := by
  have hcp : ∀ e ∈ (pages.map ListPage.CommonPrefixes).flatten, HasPrefix e pfx = true := by
    intro e he
    obtain ⟨l, hl, hel⟩ := List.mem_flatten.1 he
    obtain ⟨loo, hloo, rfl⟩ := List.mem_map.1 hl
    exact hpfx loo hloo e (List.mem_append_left _ hel)
  have hct : ∀ e ∈ (pages.map ListPage.Contents).flatten, HasPrefix e pfx = true := by
    intro e he
    obtain ⟨l, hl, hel⟩ := List.mem_flatten.1 he
    obtain ⟨loo, hloo, rfl⟩ := List.mem_map.1 hl
    exact hpfx loo hloo e (List.mem_append_right _ hel)
  have hstrict : ∀ entries : List String, (∀ e ∈ entries, HasPrefix e pfx = true) →
      entries.Nodup →
      (sortStrings (entries.map (fun e => sliceFrom e pfx))).Sorted (fun a b => a < b) := by
    intro entries hall hnd
    have hs : (sortStrings (entries.map (fun e => sliceFrom e pfx))).Sorted
        (fun a b => a ≤ b) := List.sorted_insertionSort _ _
    refine hs.lt_of_le ((List.perm_insertionSort _ _).nodup_iff.2 ?_)
    exact List.Nodup.map_on
      (fun e1 h1 e2 h2 h => sliceFrom_injOn pfx e1 e2 (hall e1 h1) (hall e2 h2) h) hnd
  refine ⟨_, by rw [asyncListPrefix, listLoop_pages pfx pages _ hpfx], rfl, ?_, ?_, ?_, ?_, ?_,
    ?_, ?_, ?_⟩
  · exact List.sorted_insertionSort _ _
  · simpa using List.perm_insertionSort _ _
  · have hp := (List.perm_insertionSort (fun a b : String => a ≤ b)
      ((pages.map ListPage.CommonPrefixes).flatten.map (fun e => sliceFrom e pfx))).map
        (fun s => pfx ++ s)
    rw [reconstruct_map pfx _ hcp] at hp
    simpa [sortStrings] using hp
  · exact List.sorted_insertionSort _ _
  · simpa using List.perm_insertionSort _ _
  · have hp := (List.perm_insertionSort (fun a b : String => a ≤ b)
      ((pages.map ListPage.Contents).flatten.map (fun e => sliceFrom e pfx))).map
        (fun s => pfx ++ s)
    rw [reconstruct_map pfx _ hct] at hp
    simpa [sortStrings] using hp
  · intro hnd
    simpa using hstrict _ hcp hnd
  · intro hnd
    simpa using hstrict _ hct hnd

/-- C11 at a listing of `d/` in two pages. -/
theorem asyncListPrefix_sorted_permutation_witness :
    (∀ loo ∈ ([⟨["d/z/", "d/y/"], ["d/b"]⟩, ⟨[], ["d/a"]⟩] : List ListPage),
      ∀ e ∈ loo.CommonPrefixes ++ loo.Contents, HasPrefix e "d/" = true) ∧
    ∃ r : asyncListPrefixResult,
      asyncListPrefix "d/" (([⟨["d/z/", "d/y/"], ["d/b"]⟩, ⟨[], ["d/a"]⟩] :
        List ListPage).map PageFetch.page) = .ok (some r) ∧ r.Err = none ∧
      r.Subprefixes.Sorted (fun a b => a ≤ b) ∧
      List.Perm r.Subprefixes
        ((([⟨["d/z/", "d/y/"], ["d/b"]⟩, ⟨[], ["d/a"]⟩] : List ListPage).map
          ListPage.CommonPrefixes).flatten.map (fun e => sliceFrom e "d/")) ∧
      List.Perm (r.Subprefixes.map (fun s => "d/" ++ s))
        (([⟨["d/z/", "d/y/"], ["d/b"]⟩, ⟨[], ["d/a"]⟩] : List ListPage).map
          ListPage.CommonPrefixes).flatten ∧
      r.Keys.Sorted (fun a b => a ≤ b) ∧
      List.Perm r.Keys
        ((([⟨["d/z/", "d/y/"], ["d/b"]⟩, ⟨[], ["d/a"]⟩] : List ListPage).map
          ListPage.Contents).flatten.map (fun e => sliceFrom e "d/")) ∧
      List.Perm (r.Keys.map (fun s => "d/" ++ s))
        (([⟨["d/z/", "d/y/"], ["d/b"]⟩, ⟨[], ["d/a"]⟩] : List ListPage).map
          ListPage.Contents).flatten ∧
      ((([⟨["d/z/", "d/y/"], ["d/b"]⟩, ⟨[], ["d/a"]⟩] : List ListPage).map
          ListPage.CommonPrefixes).flatten.Nodup →
        r.Subprefixes.Sorted (fun a b => a < b)) ∧
      ((([⟨["d/z/", "d/y/"], ["d/b"]⟩, ⟨[], ["d/a"]⟩] : List ListPage).map
          ListPage.Contents).flatten.Nodup → r.Keys.Sorted (fun a b => a < b)) :=
  ⟨by decide,
    asyncListPrefix_sorted_permutation "d/" [⟨["d/z/", "d/y/"], ["d/b"]⟩, ⟨[], ["d/a"]⟩]
      (by decide)⟩

/-- C12: in JSON format `printMissing` serialises and writes, exactly as `printDiffJSON`
would, the report that `MissingDiffReport` builds for the URL made of bucket, prefix and
suffix: its type is `Missing` and it has two objects, the URL first and the empty object
second for `FirstObject`, the empty object first and the URL second for `SecondObject`. -/
theorem printMissing_report_shape (jsonMarshal : DiffReport → Except String String)
    (s3c : S3Comparer) (bucket pfx key : String)
    (hfmt : s3c.outputFormat = OutputFormatJSON) :
    MissingDiffReport ("s3://" ++ bucket ++ "/" ++ pfx ++ key) FirstObject =
        .ok ⟨"Missing", [⟨"s3://" ++ bucket ++ "/" ++ pfx ++ key, ""⟩, ⟨"", ""⟩], ∅, ∅⟩ ∧
      MissingDiffReport ("s3://" ++ bucket ++ "/" ++ pfx ++ key) SecondObject =
        .ok ⟨"Missing", [⟨"", ""⟩, ⟨"s3://" ++ bucket ++ "/" ++ pfx ++ key, ""⟩], ∅, ∅⟩ ∧
      s3c.printMissing jsonMarshal bucket pfx key FirstObject =
        .ok (s3c.printDiffJSON jsonMarshal
          ⟨"Missing", [⟨"s3://" ++ bucket ++ "/" ++ pfx ++ key, ""⟩, ⟨"", ""⟩], ∅, ∅⟩) ∧
      s3c.printMissing jsonMarshal bucket pfx key SecondObject =
        .ok (s3c.printDiffJSON jsonMarshal
          ⟨"Missing", [⟨"", ""⟩, ⟨"s3://" ++ bucket ++ "/" ++ pfx ++ key, ""⟩], ∅, ∅⟩) := by
  have hne : ¬ s3c.outputFormat = OutputFormatText := by rw [hfmt]; decide
  have h1 : MissingDiffReport ("s3://" ++ bucket ++ "/" ++ pfx ++ key) FirstObject =
      .ok ⟨"Missing", [⟨"s3://" ++ bucket ++ "/" ++ pfx ++ key, ""⟩, ⟨"", ""⟩], ∅, ∅⟩ := rfl
  have h2 : MissingDiffReport ("s3://" ++ bucket ++ "/" ++ pfx ++ key) SecondObject =
      .ok ⟨"Missing", [⟨"", ""⟩, ⟨"s3://" ++ bucket ++ "/" ++ pfx ++ key, ""⟩], ∅, ∅⟩ := rfl
  refine ⟨h1, h2, ?_, ?_⟩
  · simp only [S3Comparer.printMissing, hne, if_false, h1, S3Comparer.printDiffJSON]
    cases jsonMarshal _ <;> rfl
  · simp only [S3Comparer.printMissing, hne, if_false, h2, S3Comparer.printDiffJSON]
    cases jsonMarshal _ <;> rfl

/-- C12 at bucket `b1`, prefix `p/` and suffix `k`, on a fresh comparer in JSON format. -/
theorem printMissing_report_shape_witness :
    s3cJSON.outputFormat = OutputFormatJSON ∧
    MissingDiffReport ("s3://" ++ "b1" ++ "/" ++ "p/" ++ "k") FirstObject =
        .ok ⟨"Missing", [⟨"s3://" ++ "b1" ++ "/" ++ "p/" ++ "k", ""⟩, ⟨"", ""⟩], ∅, ∅⟩ ∧
      MissingDiffReport ("s3://" ++ "b1" ++ "/" ++ "p/" ++ "k") SecondObject =
        .ok ⟨"Missing", [⟨"", ""⟩, ⟨"s3://" ++ "b1" ++ "/" ++ "p/" ++ "k", ""⟩], ∅, ∅⟩ ∧
      s3cJSON.printMissing (fun dr => .ok ("\"" ++ dr.Typ ++ "\"")) "b1" "p/" "k" FirstObject =
        .ok (s3cJSON.printDiffJSON (fun dr => .ok ("\"" ++ dr.Typ ++ "\""))
          ⟨"Missing", [⟨"s3://" ++ "b1" ++ "/" ++ "p/" ++ "k", ""⟩, ⟨"", ""⟩], ∅, ∅⟩) ∧
      s3cJSON.printMissing (fun dr => .ok ("\"" ++ dr.Typ ++ "\"")) "b1" "p/" "k" SecondObject =
        .ok (s3cJSON.printDiffJSON (fun dr => .ok ("\"" ++ dr.Typ ++ "\""))
          ⟨"Missing", [⟨"", ""⟩, ⟨"s3://" ++ "b1" ++ "/" ++ "p/" ++ "k", ""⟩], ∅, ∅⟩) :=
  ⟨rfl, printMissing_report_shape (fun dr => .ok ("\"" ++ dr.Typ ++ "\"")) s3cJSON
    "b1" "p/" "k" rfl⟩

section ParseLemmas

theorem slash_data : ("/" : String).toList = [slash] := by decide

theorem splitN2Slash_cases (rest : String) :
    (slash ∉ rest.toList ∧ splitN2Slash rest = [rest]) ∨
      ∃ b k : String, slash ∉ b.toList ∧ slash ∈ rest.toList ∧ rest = b ++ "/" ++ k ∧
        splitN2Slash rest = [b, k] := by
  unfold splitN2Slash
  rw [List.span_eq_take_drop]
  have hsplit := List.takeWhile_append_dropWhile (fun c => c != slash) rest.toList
  cases hd : List.dropWhile (fun c => c != slash) rest.toList with
  | nil =>
    left
    have hall : ∀ x ∈ rest.toList, (x != slash) = true := List.dropWhile_eq_nil_iff.1 hd
    refine ⟨fun hmem => by simpa using hall slash hmem, ?_⟩
    rw [hd, List.append_nil] at hsplit
    simp only [hsplit]
    rfl
  | cons c after =>
    right
    have hc : c = slash := by
      have hnot := List.head_dropWhile_not (fun c => c != slash) rest.toList
        (by rw [hd]; simp)
      simp only [hd, List.head_cons] at hnot
      simpa using hnot
    subst hc
    rw [hd] at hsplit
    refine ⟨String.mk (List.takeWhile (fun c => c != slash) rest.toList), String.mk after,
      ?_, ?_, ?_, rfl⟩
    · intro hmem
      have := List.mem_takeWhile_imp hmem
      simp at this
    · rw [← hsplit]; simp
    · apply String.ext
      simp only [String.data_append]
      show rest.toList = _ ++ ("/" : String).toList ++ _
      rw [slash_data, List.append_assoc, List.singleton_append]
      exact hsplit.symm

theorem splitN2Slash_join (b k : String) (hb : slash ∉ b.toList) :
    splitN2Slash (b ++ "/" ++ k) = [b, k] := by
  unfold splitN2Slash
  rw [List.span_eq_take_drop]
  have hdata : (b ++ "/" ++ k).toList = b.toList ++ (slash :: k.toList) := by
    show (b ++ "/" ++ k).data = _
    simp only [String.data_append]
    show _ ++ ("/" : String).toList ++ _ = _
    rw [slash_data, List.append_assoc, List.singleton_append]
    rfl
  have hall : ∀ a ∈ b.toList, (a != slash) = true := by
    intro a ha
    simp only [bne_iff_ne, ne_eq]
    intro h
    exact hb (h ▸ ha)
  rw [hdata, List.takeWhile_append_of_pos hall, List.dropWhile_append_of_pos hall]
  simp

theorem hasPrefix_append (p r : String) : HasPrefix (p ++ r) p = true := by
  unfold HasPrefix
  rw [List.isPrefixOf_iff_prefix]
  show p.data <+: (p ++ r).data
  rw [String.data_append]
  exact List.prefix_append _ _

theorem sliceFrom_append (p r : String) : sliceFrom (p ++ r) p = r := by
  unfold sliceFrom
  apply String.ext
  show List.drop p.data.length (p ++ r).data = r.data
  rw [String.data_append, List.drop_left]

theorem parseS3URL_after_scheme (rest : String) :
    parseS3URL (s3URLPrefix ++ rest) =
      .ok (match splitN2Slash rest with
        | [b] => ⟨b, "", none⟩
        | b :: k :: _ => ⟨b, k, none⟩
        | [] => ⟨"", "", none⟩) := by
  unfold parseS3URL
  rw [hasPrefix_append, sliceFrom_append]
  rcases splitN2Slash_cases rest with ⟨_, h⟩ | ⟨b, k, _, _, _, h⟩
  · simp [h]
  · simp [h]

end ParseLemmas

/-- C14: `parseS3URL` returns for every input, with an error exactly when the input does
not begin with `s3://`; for an input made of `s3://` and a rest, the bucket holds no `/`, the
rest is bucket, `/` and key when the rest holds a `/`, and the bucket is the whole rest with
an empty key when it holds none; so for a bucket without `/` and any key the URL made of
`s3://`, the bucket, `/` and the key parses back to that bucket and key without error. -/
theorem parseS3URL_spec (s bucket key : String) (hb : slash ∉ bucket.toList) :
    (∃ r, parseS3URL s = .ok r ∧
      (r.err.isSome = true ↔ HasPrefix s s3URLPrefix = false) ∧
      ∀ rest, s = "s3://" ++ rest →
        slash ∉ r.bucket.toList ∧
        (slash ∈ rest.toList → rest = r.bucket ++ "/" ++ r.key) ∧
        (slash ∉ rest.toList → r.bucket = rest ∧ r.key = "")) ∧
    parseS3URL ("s3://" ++ bucket ++ "/" ++ key) = .ok ⟨bucket, key, none⟩ := by
  constructor
  · by_cases hp : HasPrefix s s3URLPrefix = true
    · have hs : s = s3URLPrefix ++ sliceFrom s s3URLPrefix :=
        (prefix_append_sliceFrom s3URLPrefix s hp).symm
      have hinj : ∀ rest, s = "s3://" ++ rest → rest = sliceFrom s s3URLPrefix := by
        intro rest hrest
        rw [hrest]
        exact (sliceFrom_append "s3://" rest).symm
      rcases splitN2Slash_cases (sliceFrom s s3URLPrefix) with ⟨hno, h⟩ | ⟨b, k, hbn, hin, hrk, h⟩
      · refine ⟨⟨sliceFrom s s3URLPrefix, "", none⟩, ?_, by simp [hp], ?_⟩
        · conv_lhs => rw [hs]
          rw [parseS3URL_after_scheme, h]
        · intro rest hrest
          rw [← hinj rest hrest] at hno ⊢
          exact ⟨hno, fun hin => absurd hin hno, fun _ => ⟨rfl, rfl⟩⟩
      · refine ⟨⟨b, k, none⟩, ?_, by simp [hp], ?_⟩
        · conv_lhs => rw [hs]
          rw [parseS3URL_after_scheme, h]
        · intro rest hrest
          rw [← hinj rest hrest] at hin hrk
          exact ⟨hbn, fun _ => hrk, fun hno => absurd hin hno⟩
    · have hf : HasPrefix s s3URLPrefix = false := by simpa using hp
      refine ⟨⟨"", "", some ("S3 URL must begin with " ++ s3URLPrefix)⟩, ?_, by simp [hf], ?_⟩
      · unfold parseS3URL
        simp [hf]
      · intro rest hrest
        exact absurd (hrest ▸ hasPrefix_append "s3://" rest) hp
  · have hassoc : "s3://" ++ bucket ++ "/" ++ key = s3URLPrefix ++ (bucket ++ "/" ++ key) := by
      simp only [s3URLPrefix, String.append_assoc]
    rw [hassoc, parseS3URL_after_scheme, splitN2Slash_join bucket key hb]

/-- C14 at an input without the prefix and at the bucket `my-bucket` with the key `a/b`. -/
theorem parseS3URL_spec_witness :
    slash ∉ ("my-bucket" : String).toList ∧
    (∃ r, parseS3URL "http://x" = .ok r ∧
      (r.err.isSome = true ↔ HasPrefix "http://x" s3URLPrefix = false) ∧
      ∀ rest, "http://x" = "s3://" ++ rest →
        slash ∉ r.bucket.toList ∧
        (slash ∈ rest.toList → rest = r.bucket ++ "/" ++ r.key) ∧
        (slash ∉ rest.toList → r.bucket = rest ∧ r.key = "")) ∧
    parseS3URL ("s3://" ++ "my-bucket" ++ "/" ++ "a/b") = .ok ⟨"my-bucket", "a/b", none⟩ :=
  ⟨by decide, parseS3URL_spec "http://x" "my-bucket" "a/b" (by decide)⟩

section SpecHeaderLemmas

variable (unicodeLower : Char → Char)

theorem ToLower_meta_name (k : String) :
    ToLower unicodeLower ("x-amz-meta-" ++ k) = "x-amz-meta-" ++ ToLower unicodeLower k := by
  apply String.ext
  show List.map _ ("x-amz-meta-" ++ k).data = ("x-amz-meta-" ++ ToLower unicodeLower k).data
  rw [String.data_append, String.data_append, List.map_append]
  rfl

theorem userMetadataHeader_some (l : List (Sigma (fun _ : String => String))) (name v : String)
    (h : userMetadataHeader unicodeLower l name = some v) :
    HasPrefix name "x-amz-meta-" = true := by
  induction l generalizing v with
  | nil => simp [userMetadataHeader] at h
  | cons e rest ih =>
    rw [userMetadataHeader] at h
    cases hr : userMetadataHeader unicodeLower rest name with
    | some w => exact ih w hr
    | none =>
      rw [hr] at h
      by_cases hk : ToLower unicodeLower ("x-amz-meta-" ++ e.1) = name
      · rw [← hk, ToLower_meta_name]
        exact hasPrefix_append _ _
      · simp [hk] at h

theorem userMetadataHeader_none (l : List (Sigma (fun _ : String => String))) (name : String)
    (h : HasPrefix name "x-amz-meta-" = false) :
    userMetadataHeader unicodeLower l name = none := by
  cases hu : userMetadataHeader unicodeLower l name with
  | none => rfl
  | some v =>
    rw [userMetadataHeader_some unicodeLower l name v hu] at h
    exact absurd h (by simp)

theorem lookup_metadata_fold (l : List (Sigma (fun _ : String => String))) :
    ∀ (base : Headers) (name : String),
      (l.foldl (fun h e => h.insert (ToLower unicodeLower ("x-amz-meta-" ++ e.1)) e.2)
        base).lookup name =
      match userMetadataHeader unicodeLower l name with
      | some v => some v
      | none => base.lookup name := by
  induction l with
  | nil => intro base name; simp [userMetadataHeader]
  | cons e rest ih =>
    intro base name
    rw [List.foldl_cons, ih, userMetadataHeader]
    cases hr : userMetadataHeader unicodeLower rest name with
    | some w => rfl
    | none =>
      by_cases hk : ToLower unicodeLower ("x-amz-meta-" ++ e.1) = name
      · subst hk; simp [AList.lookup_insert]
      · have hk1 : name ≠ ToLower unicodeLower ("x-amz-meta-" ++ e.1) := fun h => hk h.symm
        simp [hk, AList.lookup_insert_ne hk1]

theorem setIfNonEmpty_lookup (headers : Headers) (n : String) (p : Option String)
    (name : String) :
    (setIfNonEmpty headers n p).lookup name =
      if name = n then
        (match optionalHeader p with
          | some v => some v
          | none => headers.lookup name)
      else headers.lookup name := by
  unfold setIfNonEmpty optionalHeader awsToString
  by_cases hp : p.getD "" = ""
  · simp [hp]
  · by_cases hn : name = n
    · subst hn; simp [hp, AList.lookup_insert]
    · simp [hp, hn, AList.lookup_insert_ne hn]

theorem lookup_contentLength_only (v name : String) :
    (AList.insert "content-length" v (∅ : Headers)).lookup name =
      if name = "content-length" then some v else none := by
  by_cases h : name = "content-length"
  · subst h; rw [AList.lookup_insert, if_pos rfl]
  · rw [AList.lookup_insert_ne h, AList.lookup_empty, if_neg h]

theorem headers_lookup_eq_specHeader (hoo : HeadObjectOutput) (name : String) :
    (headObjectOutputToHeaders (ToLower unicodeLower) hoo).lookup name =
      specHeader unicodeLower hoo name := by
  unfold headObjectOutputToHeaders specHeader
  simp only []
  rw [lookup_metadata_fold]
  simp only [setIfNonEmpty_lookup, lookup_contentLength_only]
  by_cases h1 : name = "content-length"
  · subst h1
    rw [userMetadataHeader_none unicodeLower _ _ (by decide)]
    simp
  by_cases h2 : name = "cache-control"
  · subst h2
    rw [userMetadataHeader_none unicodeLower _ _ (by decide)]
    cases optionalHeader hoo.CacheControl <;> simp
  by_cases h3 : name = "content-disposition"
  · subst h3
    rw [userMetadataHeader_none unicodeLower _ _ (by decide)]
    cases optionalHeader hoo.ContentDisposition <;> simp
  by_cases h4 : name = "content-encoding"
  · subst h4
    rw [userMetadataHeader_none unicodeLower _ _ (by decide)]
    cases optionalHeader hoo.ContentEncoding <;> simp
  by_cases h5 : name = "content-language"
  · subst h5
    rw [userMetadataHeader_none unicodeLower _ _ (by decide)]
    cases optionalHeader hoo.ContentLanguage <;> simp
  by_cases h6 : name = "content-type"
  · subst h6
    rw [userMetadataHeader_none unicodeLower _ _ (by decide)]
    cases optionalHeader hoo.ContentType <;> simp
  by_cases h7 : name = "etag"
  · subst h7
    rw [userMetadataHeader_none unicodeLower _ _ (by decide)]
    cases optionalHeader hoo.ETag <;> simp
  simp only [h1, h2, h3, h4, h5, h6, h7, if_false]
  cases userMetadataHeader unicodeLower hoo.Metadata.entries name <;> rfl

end SpecHeaderLemmas

section EmissionLemmas

theorem isIgnored_false_iff (s3c : S3Comparer) (name : String) :
    s3c.isIgnored name = false ↔ s3c.ignoredHeaders.lookup name ≠ some true := by
  unfold S3Comparer.isIgnored
  cases s3c.ignoredHeaders.lookup name with
  | none => simp
  | some b => cases b <;> simp

theorem hooFoo_differ_only_in_foo (name : String)
    (hne : name ≠ ToLower id "X-Amz-Meta-Foo") :
    specHeader id hooFooOne name = specHeader id hooFooTwo name := by
  have e0 : ToLower id "X-Amz-Meta-Foo" = "x-amz-meta-foo" := by decide
  have e1 : ToLower id ("x-amz-meta-" ++ "Foo") = "x-amz-meta-foo" := by decide
  rw [e0] at hne
  have hne2 : ¬ ("x-amz-meta-foo" = name) := fun h => hne h.symm
  have hm1 : hooFooOne.Metadata.entries = [⟨"Foo", "1"⟩] := rfl
  have hm2 : hooFooTwo.Metadata.entries = [⟨"Foo", "2"⟩] := rfl
  unfold specHeader
  simp only [hm1, hm2, userMetadataHeader, e1, hne2, if_false]
  rfl

end EmissionLemmas

/-- C4: for two successfully fetched metadata results, `asyncCompareKeys` hands a `Mismatch`
report to `printDiff` if and only if some header of the results, read off their fields
(`content-length`, the six optional headers, the user metadata under its lower-cased
`x-amz-meta-` name), differs between the two sides (absent on one side, or present on both
with different values) and is not mapped to `true` in the ignore set; and two results with the
same metadata (whatever their last-modified times) yield no report. -/
theorem asyncCompareKeys_emits_iff (unicodeLower : Char → Char) (s3c : S3Comparer)
    (key1 key2 : String) (hoo1 hoo2 : HeadObjectOutput) :
    ((∃ dr, asyncCompareKeys (ToLower unicodeLower) s3c key1 key2 (.ok hoo1) (.ok hoo2) =
          some dr ∧ dr.Typ = DiffTypeMismatch) ↔
      ∃ name, specHeader unicodeLower hoo1 name ≠ specHeader unicodeLower hoo2 name ∧
        s3c.ignoredHeaders.lookup name ≠ some true) ∧
    (∀ lm : String, asyncCompareKeys (ToLower unicodeLower) s3c key1 key2 (.ok hoo1)
      (.ok { hoo1 with LastModified := lm }) = none) := by
  have hiff : (compareHeaders s3c (headObjectOutputToHeaders (ToLower unicodeLower) hoo1)
      (headObjectOutputToHeaders (ToLower unicodeLower) hoo2)).diffsFound = true ↔
      ∃ name, specHeader unicodeLower hoo1 name ≠ specHeader unicodeLower hoo2 name ∧
        s3c.ignoredHeaders.lookup name ≠ some true := by
    rw [compareHeaders_diffsFound]
    simp only [headers_lookup_eq_specHeader, isIgnored_false_iff]
  constructor
  · rw [asyncCompareKeys_ok]
    constructor
    · rintro ⟨dr, hdr, _⟩
      by_contra hno
      rw [if_neg (fun hd => hno (hiff.1 hd))] at hdr
      exact absurd hdr (by simp)
    · intro h
      rw [if_pos (hiff.2 h)]
      exact ⟨_, rfl, rfl⟩
  · intro lm
    rw [asyncCompareKeys_none_iff]
    intro k hne
    exact absurd rfl hne

/-- C4 at two emissions: results that differ in `Content-Type`, and results that differ in
the content length, each with an empty ignore set. -/
theorem asyncCompareKeys_emits_iff_witness :
    (∃ dr, asyncCompareKeys (ToLower id) s3cText "x" "x" (.ok hooPlain) (.ok hooHtml) =
        some dr ∧ dr.Typ = DiffTypeMismatch) ∧
    (∃ dr, asyncCompareKeys (ToLower id) s3cText "x" "x" (.ok hooPlain)
        (.ok { hooPlain with ContentLength := 4 }) = some dr ∧ dr.Typ = DiffTypeMismatch) :=
  ⟨(asyncCompareKeys_emits_iff id s3cText "x" "x" hooPlain hooHtml).1.2
      ⟨"content-type", by decide, by decide⟩,
    (asyncCompareKeys_emits_iff id s3cText "x" "x" hooPlain
      { hooPlain with ContentLength := 4 }).1.2 ⟨"content-length", by decide, by decide⟩⟩

/-- C5: when the headers of two results, read off their fields, differ in the single header
whose lower-cased name is that of `h`, and `IgnoreHeader` was called with any spelling `h1`
that lower-cases to the same name, `asyncCompareKeys` emits no report, while the computed
diff lists that header in `DiffHeaders` with its two values (the empty string for a side
that lacks it). -/
theorem ignoreHeader_case_insensitive (unicodeLower : Char → Char) (s3c : S3Comparer)
    (key1 key2 : String) (hoo1 hoo2 : HeadObjectOutput) (h h1 : String)
    (hcase : ToLower unicodeLower h1 = ToLower unicodeLower h)
    (honly : ∀ name, name ≠ ToLower unicodeLower h →
      specHeader unicodeLower hoo1 name = specHeader unicodeLower hoo2 name)
    (hdiff : specHeader unicodeLower hoo1 (ToLower unicodeLower h) ≠
      specHeader unicodeLower hoo2 (ToLower unicodeLower h)) :
    asyncCompareKeys (ToLower unicodeLower) (s3c.IgnoreHeader (ToLower unicodeLower) h1)
        key1 key2 (.ok hoo1) (.ok hoo2) = none ∧
      (compareHeaders (s3c.IgnoreHeader (ToLower unicodeLower) h1)
        (headObjectOutputToHeaders (ToLower unicodeLower) hoo1)
        (headObjectOutputToHeaders (ToLower unicodeLower) hoo2)).DiffHeaders.lookup
          (ToLower unicodeLower h) =
        some [(specHeader unicodeLower hoo1 (ToLower unicodeLower h)).getD "",
          (specHeader unicodeLower hoo2 (ToLower unicodeLower h)).getD ""] := by
  constructor
  · rw [asyncCompareKeys_none_iff]
    intro k hne
    rw [headers_lookup_eq_specHeader, headers_lookup_eq_specHeader] at hne
    have hk : k = ToLower unicodeLower h := by
      by_contra hk
      exact hne (honly k hk)
    subst hk
    simp [S3Comparer.isIgnored, S3Comparer.IgnoreHeader, hcase, AList.lookup_insert]
  · rw [compareHeaders_diff, headers_lookup_eq_specHeader, headers_lookup_eq_specHeader,
      if_neg hdiff]

/-- C5 at the user metadata entry `Foo`: the header `X-Amz-Meta-Foo` is ignored under the
spelling `X-AMZ-META-FOO`. -/
theorem ignoreHeader_case_insensitive_witness :
    ToLower id "X-AMZ-META-FOO" = ToLower id "X-Amz-Meta-Foo" ∧
    specHeader id hooFooOne (ToLower id "X-Amz-Meta-Foo") ≠
      specHeader id hooFooTwo (ToLower id "X-Amz-Meta-Foo") ∧
    asyncCompareKeys (ToLower id) (s3cText.IgnoreHeader (ToLower id) "X-AMZ-META-FOO")
        "x" "x" (.ok hooFooOne) (.ok hooFooTwo) = none ∧
      (compareHeaders (s3cText.IgnoreHeader (ToLower id) "X-AMZ-META-FOO")
        (headObjectOutputToHeaders (ToLower id) hooFooOne)
        (headObjectOutputToHeaders (ToLower id) hooFooTwo)).DiffHeaders.lookup
          (ToLower id "X-Amz-Meta-Foo") =
        some [(specHeader id hooFooOne (ToLower id "X-Amz-Meta-Foo")).getD "",
          (specHeader id hooFooTwo (ToLower id "X-Amz-Meta-Foo")).getD ""] :=
  ⟨by decide, by decide,
    ignoreHeader_case_insensitive id s3cText "x" "x" hooFooOne hooFooTwo
      "X-Amz-Meta-Foo" "X-AMZ-META-FOO" (by decide) hooFoo_differ_only_in_foo (by decide)⟩

end S3Compare
